import Mathlib

/-!
Verification of the shadow-style injector in `src/questionai.js`.

The script defines two operations:

* `waitForElement(selector, timeout)` — resolves with the first element
  matching `selector`, either immediately or via a document-wide
  `MutationObserver`; when `timeout > 0` a `setTimeout` is armed that
  disconnects the observer and rejects.
* `injectCssIntoPlasmoHost(cssText, {wait, waitTimeout})` — for each entry of
  the fixed list `HOST_IDS` (which contains a duplicate), locates the host
  `plasmo-csui#<id>` (waiting when `wait` is true), then upserts a single
  `<style id=STYLE_ID>` node into the host's open shadow root (reusing an open
  root, or attaching a new open one via `attachShadow`), pushing one result
  record per processed identifier.

The embedding below models the DOM state the script touches: a document is a
list of `plasmo-csui` host elements (the only elements the script ever queries,
via the selectors `plasmo-csui#<hostId>`); each host carries its shadow-root
state and the behaviour of its `attachShadow` member.  Mutation inside a shadow
root and `attachShadow` itself produce no `childList` mutation of the document
tree and never add or remove host elements, so during a single batch run the
set of matching hosts is constant: a `waitForElement` call inside the batch
resolves immediately when the host is present, rejects after the timeout when
the host is absent and the timeout is armed, and suspends forever when the host
is absent and the timeout is disabled (`timeout <= 0`).  The observer lifecycle
of `waitForElement` is modelled separately as a small event-trace machine.
-/

/-- Element node inside a shadow root: its `id` attribute, its tag name
(`"style"` for style elements) and its `textContent`.  The script only ever
reads and writes these three observables of shadow-root children. -/
structure ShadowNode where
  id : String
  tag : String
  textContent : String
deriving DecidableEq

/-- Shadow-root state of a host element.  `openRoot ns` is an open shadow root
whose element children (in tree order) are `ns`; `closedRoot ns` is a closed
shadow root (the `shadowRoot` property reads as `null`; per the DOM standard a
further `attachShadow` on such a host raises); `noRoot` is a host without any
shadow root. -/
inductive ShadowState where
  | noRoot : ShadowState
  | openRoot (nodes : List ShadowNode) : ShadowState
  | closedRoot (nodes : List ShadowNode) : ShadowState
deriving DecidableEq

/-- Host element `plasmo-csui#<hostId>`.  `attachIsFunction` models the check
`typeof hostEl.attachShadow === 'function'`; `attachThrows` models an
`attachShadow` call raising on a host with no shadow root (e.g. a disallowed
element type). -/
structure Host where
  hostId : String
  shadow : ShadowState
  attachIsFunction : Bool
  attachThrows : Bool
deriving DecidableEq

/-- The live document, restricted to the `plasmo-csui` host elements (the only
elements the script queries), in tree order. -/
structure Doc where
  hosts : List Host
deriving DecidableEq

/-- Result record pushed by `injectCssIntoPlasmoHost`: the JS object carries
`hostId`, `ok`, and exactly one of `used` (success mode) or `reason` (failure
reason); the absent key is modelled as `none`. -/
structure ResultRec where
  hostId : String
  ok : Bool
  used : Option String
  reason : Option String
deriving DecidableEq

/-- Source: `const STYLE_ID = 'my-custom-shadow-style';`. -/
def STYLE_ID : String := "my-custom-shadow-style"

/-- Source: `const HOST_IDS = ['qaiSidebarShadowHostEl',
'qaiUnderlineWordShadowHostEl', 'qaiSidebarShadowHostEl'];` (note the
duplicated first entry). -/
def HOST_IDS : List String :=
  ["qaiSidebarShadowHostEl", "qaiUnderlineWordShadowHostEl", "qaiSidebarShadowHostEl"]

/-- Replace the first element satisfying `p` by its image under `f`, leaving
everything else unchanged.  Used to model in-place mutation of the first
matching DOM node. -/
def updateFirst (p : α → Bool) (f : α → α) : List α → List α
  | [] => []
  | a :: l => if p a then f a :: l else a :: updateFirst p f l

/-- Model of `document.querySelector('plasmo-csui#' ++ hid)`: the first host
element with the given id, if any. -/
def getHost (d : Doc) (hid : String) : Option Host :=
  d.hosts.find? (fun h => h.hostId = hid)

/-- Overwrite (in place) the first host with id `hid` by `h'`; models mutation
through the element reference returned by `querySelector`. -/
def setFirstHost (d : Doc) (hid : String) (h' : Host) : Doc :=
  ⟨updateFirst (fun h => h.hostId = hid) (fun _ => h') d.hosts⟩

/-- The `hostEl.shadowRoot` property: the node list of an open root, `none`
for a closed root or no root. -/
def shadowRootOf (h : Host) : Option (List ShadowNode) :=
  match h.shadow with
  | .openRoot ns => some ns
  | _ => none

/-- Whether a call `hostEl.attachShadow({mode:'open'})` raises: it always does
on a host that already hosts a (closed) shadow tree, and on a bare host it
raises exactly when `attachThrows` is set. -/
def attachShadowRaises (h : Host) : Bool :=
  match h.shadow with
  | .closedRoot _ => true
  | _ => h.attachThrows

/-- Per-host body of the `for (const hostId of HOST_IDS)` loop in
`injectCssIntoPlasmoHost`, after the host element has been located
(src/questionai.js lines 62-96).  Returns the updated host, the result record
pushed for it, and a flag recording whether the `hostEl.attachShadow` call
site executed. -/
def injectIntoHost (cssText : String) (hid : String) (h : Host) :
    Host × ResultRec × Bool :=
  match shadowRootOf h with
  | some ns =>
      -- `let style = sr.getElementById(STYLE_ID); if (!style) {...};
      -- style.textContent = cssText;`
      let ns' :=
        if ns.any (fun n => n.id = STYLE_ID) then
          updateFirst (fun n => n.id = STYLE_ID)
            (fun n => { n with textContent := cssText }) ns
        else
          ns ++ [⟨STYLE_ID, "style", cssText⟩]
      ({ h with shadow := .openRoot ns' },
       ⟨hid, true, some "existing-open-shadowRoot", none⟩, false)
  | none =>
      if h.attachIsFunction then
        if attachShadowRaises h then
          (h, ⟨hid, false, none, some "attach-failed"⟩, true)
        else
          ({ h with shadow := .openRoot [⟨STYLE_ID, "style", cssText⟩] },
           ⟨hid, true, some "attached-new-open-shadowRoot", none⟩, true)
      else
        (h, ⟨hid, false, none, some "closed-or-no-attach"⟩, false)

/-- Sequential processing of a list of host identifiers by
`injectCssIntoPlasmoHost` on a document whose host population is static
during the run (see the module comment).  The third component is `true` when
the loop ran to completion; it is `false` when an `await waitForElement`
suspends forever (`wait` true, timeout disabled, host absent), in which case
the records accumulated so far live only in the never-returned local array. -/
def injectGo (cssText : String) (wait : Bool) (tmo : Int) (d : Doc) :
    List String → Doc × List ResultRec × Bool
  | [] => (d, [], true)
  | hid :: rest =>
    match getHost d hid with
    | none =>
      if wait ∧ tmo ≤ 0 then
        -- `await waitForElement(...)` never settles: no timeout armed and the
        -- host never appears; the batch suspends here forever.
        (d, [], false)
      else
        -- wait mode: the waiter rejects after the timeout and the `catch`
        -- records host-not-found; no-wait mode: `!hostEl` records the same.
        let r := injectGo cssText wait tmo d rest
        (r.1, ⟨hid, false, none, some "host-not-found"⟩ :: r.2.1, r.2.2)
    | some h =>
      let step := injectIntoHost cssText hid h
      let r := injectGo cssText wait tmo (setFirstHost d hid step.1) rest
      (r.1, step.2.1 :: r.2.1, r.2.2)

/-- Model of `injectCssIntoPlasmoHost(cssText, {wait, waitTimeout})` on a
static document: final document, result records, and whether the batch ran to
completion (i.e. the returned promise resolves with the record list). -/
def injectCssIntoPlasmoHost (cssText : String) (wait : Bool) (waitTimeout : Int)
    (d : Doc) : Doc × List ResultRec × Bool :=
  injectGo cssText wait waitTimeout d HOST_IDS

/-- Number of nodes with id `STYLE_ID` in a node list. -/
def countStyleId (ns : List ShadowNode) : Nat :=
  ns.countP (fun n => n.id = STYLE_ID)

/-- A host whose open shadow root (if any) holds at most one node with id
`STYLE_ID`. -/
def hostAtMostOne (h : Host) : Bool :=
  match h.shadow with
  | .openRoot ns => countStyleId ns ≤ 1
  | _ => true

/-- Every open shadow root in the document holds at most one node with id
`STYLE_ID`. -/
def docAtMostOne (d : Doc) : Bool :=
  d.hosts.all hostAtMostOne

/-- A well-formed result record: either a success carrying one of the two
modes and no reason, or a failure carrying one of the three reasons and no
mode — never both. -/
def validRec (r : ResultRec) : Bool :=
  (r.ok ∧ r.reason = none ∧
    (r.used = some "existing-open-shadowRoot" ∨
     r.used = some "attached-new-open-shadowRoot")) ∨
  (¬ r.ok ∧ r.used = none ∧
    (r.reason = some "host-not-found" ∨ r.reason = some "attach-failed" ∨
     r.reason = some "closed-or-no-attach"))

/-- The record pushed when a host cannot be located. -/
def notFoundRec (hid : String) : ResultRec :=
  ⟨hid, false, none, some "host-not-found"⟩

/-! ### Event-trace model of `waitForElement` (src/questionai.js lines 14-38)

A call `waitForElement(selector, timeout)` first runs `querySelector`; if it
matches, it resolves at once and installs nothing.  Otherwise it installs one
document-wide `MutationObserver` and, when `timeout > 0`, arms one
`setTimeout`.  Afterwards the environment delivers a sequence of events: each
`mutation found` event is a mutation-callback invocation (`found` tells
whether `document.querySelector(selector)` now matches — the callback of a
disconnected observer never runs); `timerFires` is the armed timeout callback
(a no-op event when no timer is pending).  Settling a promise twice is a
no-op, which `Option.getD` captures: the first settlement wins. -/

/-- Environment events delivered to a pending `waitForElement` call. -/
inductive WEvent where
  | mutation (found : Bool) : WEvent
  | timerFires : WEvent
deriving DecidableEq

/-- Settled state of the promise returned by `waitForElement`. -/
inductive WOutcome where
  | resolved : WOutcome
  | rejected (msg : String) : WOutcome
deriving DecidableEq

/-- Observable state of one `waitForElement` call: its selector, how many
observers it installed, whether its observer is still observing, how many
times `observer.disconnect()` was called, whether its timeout is still
pending, and the promise outcome (if settled). -/
structure WState where
  selector : String
  observersInstalled : Nat
  observerActive : Bool
  disconnectCalls : Nat
  timerPending : Bool
  outcome : Option WOutcome
deriving DecidableEq

/-- State right after `waitForElement(selector, timeout)` runs its synchronous
prefix: immediate resolution when the element is present, otherwise one
observer installed and the timer armed iff `timeout > 0`. -/
def waitInit (selector : String) (presentAtCall : Bool) (timeout : Int) : WState :=
  if presentAtCall then
    ⟨selector, 0, false, 0, false, some .resolved⟩
  else
    ⟨selector, 1, true, 0, decide (timeout > 0), none⟩

/-- One environment event.  A mutation callback runs only while the observer
is active; on a match it disconnects then resolves.  The timeout callback
(only if still pending) disconnects the observer and rejects with the
timeout message; the source never cancels the timer. -/
def waitStep (st : WState) (e : WEvent) : WState :=
  match e with
  | .mutation found =>
      if st.observerActive ∧ found then
        { st with observerActive := false,
                  disconnectCalls := st.disconnectCalls + 1,
                  outcome := some (st.outcome.getD .resolved) }
      else st
  | .timerFires =>
      if st.timerPending then
        { st with timerPending := false,
                  observerActive := false,
                  disconnectCalls := st.disconnectCalls + 1,
                  outcome := some (st.outcome.getD
                    (.rejected ("Timed out waiting for " ++ st.selector))) }
      else st

/-- Run a `waitForElement` call over a finite event trace. -/
def waitRun (st : WState) (tr : List WEvent) : WState :=
  tr.foldl waitStep st

/-- Whether, in a trace delivered to a pending wait, the timeout callback runs
before any matching mutation callback (i.e. the element never appears before
the timeout elapses). -/
def timerWinsIn : List WEvent → Bool
  | [] => false
  | .mutation true :: _ => false
  | .mutation false :: tr => timerWinsIn tr
  | .timerFires :: _ => true

/-- Whether some event of the trace is a matching mutation. -/
def hasFound : List WEvent → Bool
  | [] => false
  | .mutation true :: _ => true
  | _ :: tr => hasFound tr

/-- Whether an optional outcome is a rejection. -/
def isRejectedO : Option WOutcome → Bool
  | some (.rejected _) => true
  | _ => false

/-- The record pushed on a successful upsert into a pre-existing open shadow
root. -/
def existingRec (hid : String) : ResultRec :=
  ⟨hid, true, some "existing-open-shadowRoot", none⟩

/-- The record pushed after successfully attaching a new open shadow root. -/
def attachedRec (hid : String) : ResultRec :=
  ⟨hid, true, some "attached-new-open-shadowRoot", none⟩

/-- The record pushed when `attachShadow` raises. -/
def attachFailedRec (hid : String) : ResultRec :=
  ⟨hid, false, none, some "attach-failed"⟩

/-- The host named `hid` is present, its first occurrence has an open shadow
root holding exactly one node with id `STYLE_ID`, and every such node's text
content is `css`. -/
def styledWith (css : String) (d : Doc) (hid : String) : Prop :=
  ∃ h ns, getHost d hid = some h ∧ h.shadow = .openRoot ns ∧
    countStyleId ns = 1 ∧ ∀ n ∈ ns, n.id = STYLE_ID → n.textContent = css

/-- Number of `STYLE_ID`-bearing nodes in a host's open shadow root (`0` when
the host has no accessible root). -/
def openStyleCount (h : Host) : Nat :=
  match h.shadow with
  | .openRoot ns => countStyleId ns
  | _ => 0

/-- Invariant of a pending `waitForElement` call (one that found no element at
call time), over every event trace: one observer was installed; the promise is
settled exactly when the observer has stopped observing; `disconnect()` has
been called at least once exactly when the observer has stopped; at most two
`disconnect()` calls ever happen, and a second one can only be the un-cancelled
timer firing after the observer already matched and resolved. -/
def WInv (tmo : Int) (st : WState) : Prop :=
  st.observersInstalled = 1 ∧
  (st.outcome.isSome = true ↔ st.observerActive = false) ∧
  (st.disconnectCalls = 0 ↔ st.observerActive = true) ∧
  st.disconnectCalls ≤ 2 ∧
  (st.disconnectCalls = 2 → st.outcome = some .resolved ∧ st.timerPending = false) ∧
  (st.timerPending = true → 0 < tmo) ∧
  (st.timerPending = true → st.disconnectCalls = 1 → st.outcome = some .resolved)

/-! ### Lemmas about `updateFirst` -/

theorem updateFirst_cons_pos {p : α → Bool} {f : α → α} {a : α} {l : List α}
    (h : p a = true) : updateFirst p f (a :: l) = f a :: l := by
  simp [updateFirst, h]

theorem updateFirst_cons_neg {p : α → Bool} {f : α → α} {a : α} {l : List α}
    (h : p a = false) : updateFirst p f (a :: l) = a :: updateFirst p f l := by
  simp [updateFirst, h]

theorem updateFirst_const_self {p : α → Bool} {a : α} :
    ∀ {l : List α}, l.find? p = some a → updateFirst p (fun _ => a) l = l := by
  intro l
  induction l with
  | nil => intro h; simp at h
  | cons b l ih =>
    intro h
    cases hb : p b with
    | true =>
      rw [List.find?_cons_of_pos _ hb] at h
      cases h
      rw [updateFirst_cons_pos hb]
    | false =>
      rw [List.find?_cons_of_neg _ (by simp [hb])] at h
      rw [updateFirst_cons_neg hb, ih h]

theorem find?_updateFirst {p : α → Bool} {f : α → α} {a : α} :
    ∀ {l : List α}, l.find? p = some a → p (f a) = true →
      (updateFirst p f l).find? p = some (f a) := by
  intro l
  induction l with
  | nil => intro h; simp at h
  | cons b l ih =>
    intro h hfa
    cases hb : p b with
    | true =>
      rw [List.find?_cons_of_pos _ hb] at h
      cases h
      rw [updateFirst_cons_pos hb, List.find?_cons_of_pos _ hfa]
    | false =>
      rw [List.find?_cons_of_neg _ (by simp [hb])] at h
      rw [updateFirst_cons_neg hb, List.find?_cons_of_neg _ (by simp [hb]), ih h hfa]

theorem find?_updateFirst_of_neg {p q : α → Bool} {f : α → α}
    (hq : ∀ a, p a = true → q a = false ∧ q (f a) = false) :
    ∀ (l : List α), (updateFirst p f l).find? q = l.find? q := by
  intro l
  induction l with
  | nil => rfl
  | cons b l ih =>
    cases hb : p b with
    | true =>
      rw [updateFirst_cons_pos hb, List.find?_cons_of_neg _ (by simp [(hq b hb).2]),
        List.find?_cons_of_neg _ (by simp [(hq b hb).1])]
    | false =>
      rw [updateFirst_cons_neg hb]
      cases hqb : q b with
      | true => rw [List.find?_cons_of_pos _ hqb, List.find?_cons_of_pos _ hqb]
      | false => rw [List.find?_cons_of_neg _ (by simp [hqb]), List.find?_cons_of_neg _ (by simp [hqb]), ih]

theorem map_updateFirst {p : α → Bool} {f : α → α} {g : α → β}
    (hg : ∀ a, p a = true → g (f a) = g a) :
    ∀ (l : List α), (updateFirst p f l).map g = l.map g := by
  intro l
  induction l with
  | nil => rfl
  | cons b l ih =>
    cases hb : p b with
    | true => rw [updateFirst_cons_pos hb]; simp [hg b hb]
    | false => rw [updateFirst_cons_neg hb]; simp [ih]

theorem countP_updateFirst {p q : α → Bool} {f : α → α}
    (hg : ∀ a, p a = true → q (f a) = q a) :
    ∀ (l : List α), (updateFirst p f l).countP q = l.countP q := by
  intro l
  induction l with
  | nil => rfl
  | cons b l ih =>
    cases hb : p b with
    | true => rw [updateFirst_cons_pos hb]; simp [List.countP_cons, hg b hb]
    | false => rw [updateFirst_cons_neg hb]; simp [List.countP_cons, ih]

theorem any_updateFirst {p q : α → Bool} {f : α → α}
    (hg : ∀ a, p a = true → q (f a) = q a) :
    ∀ (l : List α), (updateFirst p f l).any q = l.any q := by
  intro l
  induction l with
  | nil => rfl
  | cons b l ih =>
    cases hb : p b with
    | true => rw [updateFirst_cons_pos hb]; simp [hg b hb]
    | false => rw [updateFirst_cons_neg hb]; simp [ih]

theorem all_updateFirst {p P : α → Bool} {b : α}
    (hb : P b = true) :
    ∀ {l : List α}, l.all P = true → (updateFirst p (fun _ => b) l).all P = true := by
  intro l
  induction l with
  | nil => intro _; rfl
  | cons a l ih =>
    intro hall
    rw [List.all_cons, Bool.and_eq_true] at hall
    cases ha : p a with
    | true => rw [updateFirst_cons_pos ha]; simp [hb, hall.2]
    | false => rw [updateFirst_cons_neg ha]; simp [hall.1, ih hall.2]

theorem updateFirst_idem {p : α → Bool} {f : α → α}
    (hp : ∀ a, p a = true → p (f a) = true) (hf : ∀ a, f (f a) = f a) :
    ∀ (l : List α), updateFirst p f (updateFirst p f l) = updateFirst p f l := by
  intro l
  induction l with
  | nil => rfl
  | cons b l ih =>
    cases hb : p b with
    | true => rw [updateFirst_cons_pos hb, updateFirst_cons_pos (hp b hb), hf]
    | false => rw [updateFirst_cons_neg hb, updateFirst_cons_neg hb, ih]

/-! ### Lemmas about `getHost` and `setFirstHost` -/

theorem getHost_setFirst_same {d : Doc} {hid : String} {h h' : Host}
    (hg : getHost d hid = some h) (hh' : h'.hostId = hid) :
    getHost (setFirstHost d hid h') hid = some h' := by
  unfold getHost setFirstHost
  exact find?_updateFirst hg (by simp [hh'])

theorem getHost_setFirst_ne {d : Doc} {hid hid' : String} {h' : Host}
    (hne : hid' ≠ hid) (hh' : h'.hostId = hid) :
    getHost (setFirstHost d hid h') hid' = getHost d hid' := by
  unfold getHost setFirstHost
  refine find?_updateFirst_of_neg (fun a ha => ?_) d.hosts
  simp only [decide_eq_true_eq] at ha
  constructor
  · simp [ha]; exact fun hc => hne (hc ▸ rfl)
  · simp [hh']; exact fun hc => hne (hc ▸ rfl)

theorem hostIds_setFirst {d : Doc} {hid : String} {h h' : Host}
    (hg : getHost d hid = some h) (hh' : h'.hostId = h.hostId) :
    (setFirstHost d hid h').hosts.map (·.hostId) = d.hosts.map (·.hostId) := by
  have hhid : h.hostId = hid := by
    have := List.find?_some hg
    simpa using this
  refine map_updateFirst (fun a ha => ?_) d.hosts
  simp only [decide_eq_true_eq] at ha
  simp [hh', hhid, ha]

theorem getHost_none_iff {d : Doc} {hid : String} :
    getHost d hid = none ↔ hid ∉ d.hosts.map (·.hostId) := by
  unfold getHost
  rw [List.find?_eq_none]
  simp only [List.mem_map, decide_eq_true_eq]
  constructor
  · rintro h ⟨x, hx, rfl⟩
    exact h x hx rfl
  · intro h x hx heq
    exact h ⟨x, hx, heq⟩

theorem getHost_none_of_map {d d' : Doc} {hid : String}
    (hmap : d'.hosts.map (·.hostId) = d.hosts.map (·.hostId))
    (hg : getHost d hid = none) : getHost d' hid = none := by
  rw [getHost_none_iff, hmap]
  exact getHost_none_iff.mp hg

theorem docAtMostOne_setFirst {d : Doc} {hid : String} {h' : Host}
    (hd : docAtMostOne d = true) (hh' : hostAtMostOne h' = true) :
    docAtMostOne (setFirstHost d hid h') = true :=
  all_updateFirst hh' hd

/-! ### Style-node list helpers -/

theorem texts_updateFirst {css : String} :
    ∀ {ns : List ShadowNode}, countStyleId ns ≤ 1 →
      ∀ n ∈ updateFirst (fun n => n.id = STYLE_ID)
        (fun n => { n with textContent := css }) ns,
        n.id = STYLE_ID → n.textContent = css := by
  intro ns
  induction ns with
  | nil => intro _ n hn; simp [updateFirst] at hn
  | cons b ns ih =>
    intro hc n hn hid
    cases hb : decide (b.id = STYLE_ID) with
    | true =>
      simp only [updateFirst, hb, if_true] at hn
      rcases List.mem_cons.mp hn with rfl | hmem
      · rfl
      · exfalso
        have hzero : ns.countP (fun n => decide (n.id = STYLE_ID)) = 0 := by
          unfold countStyleId at hc
          rw [List.countP_cons, hb, if_pos rfl] at hc
          omega
        have := List.countP_eq_zero.mp hzero n hmem
        simp [hid] at this
    | false =>
      simp only [updateFirst, hb, Bool.false_eq_true, if_false] at hn
      rcases List.mem_cons.mp hn with rfl | hmem
      · simp [hid] at hb
      · have hc' : countStyleId ns ≤ 1 := by
          unfold countStyleId at hc ⊢
          rw [List.countP_cons, hb] at hc
          rw [if_neg (by simp)] at hc
          omega
        exact ih hc' n hmem hid

theorem countStyleId_updateFirst {css : String} {ns : List ShadowNode} :
    countStyleId (updateFirst (fun n => n.id = STYLE_ID)
      (fun n => { n with textContent := css }) ns) = countStyleId ns := by
  unfold countStyleId
  apply countP_updateFirst
  intro a _
  rfl

theorem countStyleId_of_any_false {ns : List ShadowNode}
    (h : ns.any (fun n => n.id = STYLE_ID) = false) : countStyleId ns = 0 := by
  rw [countStyleId, List.countP_eq_zero]
  intro a ha
  have := List.any_eq_false.mp h a ha
  simpa using this

theorem countStyleId_pos_of_any {ns : List ShadowNode}
    (h : ns.any (fun n => n.id = STYLE_ID) = true) : 0 < countStyleId ns := by
  rw [countStyleId, List.countP_pos_iff]
  simpa using List.any_eq_true.mp h

theorem any_of_countStyleId_pos {ns : List ShadowNode}
    (h : 0 < countStyleId ns) : ns.any (fun n => n.id = STYLE_ID) = true := by
  rw [countStyleId, List.countP_pos_iff] at h
  rw [List.any_eq_true]
  simpa using h

/-! ### Computation lemmas for `injectIntoHost` -/

theorem injectIntoHost_closed {css hid : String} {h : Host} {ns : List ShadowNode}
    (hsh : h.shadow = .closedRoot ns) (hfn : h.attachIsFunction = true) :
    injectIntoHost css hid h = (h, ⟨hid, false, none, some "attach-failed"⟩, true) := by
  simp [injectIntoHost, shadowRootOf, attachShadowRaises, hsh, hfn]

theorem injectIntoHost_open_existing {css hid : String} {h : Host} {ns : List ShadowNode}
    (hsh : h.shadow = .openRoot ns)
    (hany : ns.any (fun n => n.id = STYLE_ID) = true) :
    injectIntoHost css hid h =
      ({ h with shadow := .openRoot (updateFirst (fun n => n.id = STYLE_ID)
          (fun n => { n with textContent := css }) ns) },
       ⟨hid, true, some "existing-open-shadowRoot", none⟩, false) := by
  simp [injectIntoHost, shadowRootOf, hsh, hany]

theorem injectIntoHost_open_new {css hid : String} {h : Host} {ns : List ShadowNode}
    (hsh : h.shadow = .openRoot ns)
    (hany : ns.any (fun n => n.id = STYLE_ID) = false) :
    injectIntoHost css hid h =
      ({ h with shadow := .openRoot (ns ++ [⟨STYLE_ID, "style", css⟩]) },
       ⟨hid, true, some "existing-open-shadowRoot", none⟩, false) := by
  simp [injectIntoHost, shadowRootOf, hsh, hany]

theorem injectIntoHost_fresh {css hid : String} {h : Host}
    (hsh : h.shadow = .noRoot) (hfn : h.attachIsFunction = true)
    (hthr : h.attachThrows = false) :
    injectIntoHost css hid h =
      ({ h with shadow := .openRoot [⟨STYLE_ID, "style", css⟩] },
       ⟨hid, true, some "attached-new-open-shadowRoot", none⟩, true) := by
  simp [injectIntoHost, shadowRootOf, attachShadowRaises, hsh, hthr, hfn]

theorem injectIntoHost_hostId {css hid : String} {h : Host} :
    (injectIntoHost css hid h).1.hostId = h.hostId := by
  unfold injectIntoHost
  cases hs : shadowRootOf h with
  | some ns => simp
  | none => dsimp only; split_ifs <;> rfl

theorem injectIntoHost_rec_hostId {css hid : String} {h : Host} :
    (injectIntoHost css hid h).2.1.hostId = hid := by
  unfold injectIntoHost
  cases hs : shadowRootOf h with
  | some ns => simp
  | none => dsimp only; split_ifs <;> rfl

theorem injectIntoHost_valid {css hid : String} {h : Host} :
    validRec (injectIntoHost css hid h).2.1 = true := by
  unfold injectIntoHost
  cases hs : shadowRootOf h with
  | some ns => simp [validRec]
  | none => dsimp only; split_ifs <;> simp [validRec]

theorem injectIntoHost_atMostOne {css hid : String} {h : Host}
    (hok : hostAtMostOne h = true) :
    hostAtMostOne (injectIntoHost css hid h).1 = true := by
  cases hs : h.shadow with
  | openRoot ns =>
    have hns : countStyleId ns ≤ 1 := by
      unfold hostAtMostOne at hok
      rw [hs] at hok
      simpa using hok
    cases hany : ns.any (fun n => n.id = STYLE_ID) with
    | true =>
      rw [injectIntoHost_open_existing hs hany]
      unfold hostAtMostOne
      simp [countStyleId_updateFirst, hns]
    | false =>
      rw [injectIntoHost_open_new hs hany]
      have h0 : countStyleId ns = 0 := countStyleId_of_any_false hany
      have h1 : countStyleId (ns ++ [⟨STYLE_ID, "style", css⟩]) = 1 := by
        unfold countStyleId at h0 ⊢
        rw [List.countP_append, h0]
        simp
      simp [hostAtMostOne, h1]
  | noRoot =>
    cases hfn : h.attachIsFunction with
    | true =>
      cases hthr : h.attachThrows with
      | true =>
        unfold injectIntoHost
        simp [shadowRootOf, hs, attachShadowRaises, hfn, hthr, hok]
      | false =>
        rw [injectIntoHost_fresh hs hfn hthr]
        unfold hostAtMostOne
        simp [countStyleId, List.countP_cons, STYLE_ID]
    | false =>
      unfold injectIntoHost
      simp [shadowRootOf, hs, hfn, hok]
  | closedRoot ns =>
    cases hfn : h.attachIsFunction with
    | true => rw [injectIntoHost_closed hs hfn]; exact hok
    | false =>
      unfold injectIntoHost
      simp [shadowRootOf, hs, hfn, hok]

/-! ### Unfolding lemmas for `injectGo` -/

theorem injectGo_nil {css : String} {wait : Bool} {tmo : Int} {d : Doc} :
    injectGo css wait tmo d [] = (d, [], true) := rfl

theorem injectGo_cons_div {css hid : String} {wait : Bool} {tmo : Int} {d : Doc}
    {rest : List String} (hg : getHost d hid = none) (hw : wait ∧ tmo ≤ 0) :
    injectGo css wait tmo d (hid :: rest) = (d, [], false) := by
  simp [injectGo, hg, hw]

theorem injectGo_cons_nf {css hid : String} {wait : Bool} {tmo : Int} {d : Doc}
    {rest : List String} (hg : getHost d hid = none) (hw : ¬ (wait ∧ tmo ≤ 0)) :
    injectGo css wait tmo d (hid :: rest) =
      ((injectGo css wait tmo d rest).1,
       notFoundRec hid :: (injectGo css wait tmo d rest).2.1,
       (injectGo css wait tmo d rest).2.2) := by
  simp [injectGo, hg, hw, notFoundRec]

theorem injectGo_cons_found {css hid : String} {wait : Bool} {tmo : Int} {d : Doc}
    {rest : List String} {h : Host} (hg : getHost d hid = some h) :
    injectGo css wait tmo d (hid :: rest) =
      ((injectGo css wait tmo (setFirstHost d hid (injectIntoHost css hid h).1) rest).1,
       (injectIntoHost css hid h).2.1 ::
         (injectGo css wait tmo (setFirstHost d hid (injectIntoHost css hid h).1) rest).2.1,
       (injectGo css wait tmo (setFirstHost d hid (injectIntoHost css hid h).1) rest).2.2) := by
  simp [injectGo, hg]

/-! ### Batch-level lemmas -/

theorem injectGo_hostIds {css : String} {wait : Bool} {tmo : Int} :
    ∀ (ids : List String) (d : Doc),
      (injectGo css wait tmo d ids).1.hosts.map (·.hostId) = d.hosts.map (·.hostId) := by
  intro ids
  induction ids with
  | nil => intro d; rfl
  | cons hid rest ih =>
    intro d
    cases hg : getHost d hid with
    | none =>
      by_cases hw : wait ∧ tmo ≤ 0
      · rw [injectGo_cons_div hg hw]
      · rw [injectGo_cons_nf hg hw]
        exact ih d
    | some h =>
      rw [injectGo_cons_found hg]
      rw [ih (setFirstHost d hid (injectIntoHost css hid h).1)]
      exact hostIds_setFirst hg injectIntoHost_hostId

theorem injectGo_complete {css : String} {wait : Bool} {tmo : Int}
    (hwt : wait = false ∨ 0 < tmo) :
    ∀ (ids : List String) (d : Doc), (injectGo css wait tmo d ids).2.2 = true := by
  intro ids
  induction ids with
  | nil => intro d; rfl
  | cons hid rest ih =>
    intro d
    have hw : ¬ (wait ∧ tmo ≤ 0) := by
      rcases hwt with hf | hp
      · rintro ⟨hwaittrue, _⟩; rw [hf] at hwaittrue; exact Bool.false_ne_true hwaittrue
      · rintro ⟨_, hle⟩; omega
    cases hg : getHost d hid with
    | none => rw [injectGo_cons_nf hg hw]; exact ih d
    | some h => rw [injectGo_cons_found hg]; exact ih _

theorem injectGo_c_congr {css css' : String} {wait : Bool} {tmo : Int} :
    ∀ (ids : List String) (d d' : Doc),
      d'.hosts.map (·.hostId) = d.hosts.map (·.hostId) →
      (injectGo css' wait tmo d' ids).2.2 = (injectGo css wait tmo d ids).2.2 := by
  intro ids
  induction ids with
  | nil => intro d d' _; rfl
  | cons hid rest ih =>
    intro d d' hmap
    cases hg : getHost d hid with
    | none =>
      have hg' : getHost d' hid = none := getHost_none_of_map hmap hg
      by_cases hw : wait ∧ tmo ≤ 0
      · rw [injectGo_cons_div hg hw, injectGo_cons_div hg' hw]
      · rw [injectGo_cons_nf hg hw, injectGo_cons_nf hg' hw]
        exact ih d d' hmap
    | some h =>
      cases hg' : getHost d' hid with
      | none =>
        exfalso
        have := getHost_none_of_map hmap.symm hg'
        rw [this] at hg
        cases hg
      | some h'' =>
        rw [injectGo_cons_found hg, injectGo_cons_found hg']
        refine ih _ _ ?_
        rw [hostIds_setFirst hg' injectIntoHost_hostId,
          hostIds_setFirst hg injectIntoHost_hostId, hmap]

theorem injectGo_map_of_complete {css : String} {wait : Bool} {tmo : Int} :
    ∀ (ids : List String) (d : Doc),
      (injectGo css wait tmo d ids).2.2 = true →
      (injectGo css wait tmo d ids).2.1.map (·.hostId) = ids := by
  intro ids
  induction ids with
  | nil => intro d _; rfl
  | cons hid rest ih =>
    intro d hc
    cases hg : getHost d hid with
    | none =>
      by_cases hw : wait ∧ tmo ≤ 0
      · rw [injectGo_cons_div hg hw] at hc
        cases hc
      · rw [injectGo_cons_nf hg hw] at hc ⊢
        simp only [List.map_cons]
        rw [ih d hc]
        rfl
    | some h =>
      rw [injectGo_cons_found hg] at hc ⊢
      simp only [List.map_cons]
      rw [ih _ hc, injectIntoHost_rec_hostId]

theorem injectGo_valid {css : String} {wait : Bool} {tmo : Int} :
    ∀ (ids : List String) (d : Doc),
      ∀ r ∈ (injectGo css wait tmo d ids).2.1, validRec r = true := by
  intro ids
  induction ids with
  | nil => intro d r hr; simp [injectGo_nil] at hr
  | cons hid rest ih =>
    intro d r hr
    cases hg : getHost d hid with
    | none =>
      by_cases hw : wait ∧ tmo ≤ 0
      · rw [injectGo_cons_div hg hw] at hr
        simp at hr
      · rw [injectGo_cons_nf hg hw] at hr
        rcases List.mem_cons.mp hr with rfl | hmem
        · simp [validRec, notFoundRec]
        · exact ih d r hmem
    | some h =>
      rw [injectGo_cons_found hg] at hr
      rcases List.mem_cons.mp hr with rfl | hmem
      · exact injectIntoHost_valid
      · exact ih _ r hmem

theorem injectGo_notFound_rec {css : String} {wait : Bool} {tmo : Int} {hid : String} :
    ∀ (ids : List String) (d : Doc), getHost d hid = none →
      ∀ r ∈ (injectGo css wait tmo d ids).2.1, r.hostId = hid → r = notFoundRec hid := by
  intro ids
  induction ids with
  | nil => intro d _ r hr; simp [injectGo_nil] at hr
  | cons hid' rest ih =>
    intro d hg r hr hrid
    cases hg' : getHost d hid' with
    | none =>
      by_cases hw : wait ∧ tmo ≤ 0
      · rw [injectGo_cons_div hg' hw] at hr
        simp at hr
      · rw [injectGo_cons_nf hg' hw] at hr
        rcases List.mem_cons.mp hr with rfl | hmem
        · have heq : hid' = hid := by simpa [notFoundRec] using hrid
          rw [heq]
        · exact ih d hg r hmem hrid
    | some h =>
      have hne : hid' ≠ hid := by
        rintro rfl
        rw [hg] at hg'
        cases hg'
      rw [injectGo_cons_found hg'] at hr
      rcases List.mem_cons.mp hr with rfl | hmem
      · exfalso
        rw [injectIntoHost_rec_hostId] at hrid
        exact hne hrid
      · refine ih _ ?_ r hmem hrid
        exact getHost_none_of_map (hostIds_setFirst hg' injectIntoHost_hostId) hg

theorem injectGo_atMostOne {css : String} {wait : Bool} {tmo : Int} :
    ∀ (ids : List String) (d : Doc), docAtMostOne d = true →
      docAtMostOne (injectGo css wait tmo d ids).1 = true := by
  intro ids
  induction ids with
  | nil => intro d hd; exact hd
  | cons hid rest ih =>
    intro d hd
    cases hg : getHost d hid with
    | none =>
      by_cases hw : wait ∧ tmo ≤ 0
      · rw [injectGo_cons_div hg hw]; exact hd
      · rw [injectGo_cons_nf hg hw]; exact ih d hd
    | some h =>
      rw [injectGo_cons_found hg]
      refine ih _ (docAtMostOne_setFirst hd ?_)
      refine injectIntoHost_atMostOne ?_
      have hmem : h ∈ d.hosts := List.mem_of_find?_eq_some hg
      exact List.all_eq_true.mp hd h hmem

theorem injectGo_diverge {css : String} {tmo : Int} {hid : String} (htm : tmo ≤ 0) :
    ∀ (ids : List String) (d : Doc), hid ∈ ids → getHost d hid = none →
      (injectGo css true tmo d ids).2.2 = false ∧
      (injectGo css true tmo d ids).2.1.map (·.hostId) =
        ids.take (injectGo css true tmo d ids).2.1.length ∧
      (injectGo css true tmo d ids).2.1.length < ids.length ∧
      hid ∉ (injectGo css true tmo d ids).2.1.map (·.hostId) := by
  intro ids
  induction ids with
  | nil => intro d hmem; cases hmem
  | cons hid' rest ih =>
    intro d hmem hg
    cases hg' : getHost d hid' with
    | none =>
      rw [injectGo_cons_div hg' ⟨rfl, htm⟩]
      refine ⟨rfl, rfl, ?_, ?_⟩
      · simp
      · simp
    | some h =>
      have hne : hid ≠ hid' := by
        rintro rfl
        rw [hg] at hg'
        cases hg'
      have hmem' : hid ∈ rest := by
        rcases List.mem_cons.mp hmem with rfl | hm
        · exact absurd rfl hne
        · exact hm
      have hg2 : getHost (setFirstHost d hid' (injectIntoHost css hid' h).1) hid = none :=
        getHost_none_of_map (hostIds_setFirst hg' injectIntoHost_hostId) hg
      rcases ih _ hmem' hg2 with ⟨hc, hmap, hlen, hnot⟩
      rw [injectGo_cons_found hg']
      refine ⟨hc, ?_, ?_, ?_⟩
      · simp only [List.map_cons, List.length_cons, List.take_succ_cons]
        rw [hmap, injectIntoHost_rec_hostId]
      · simpa using hlen
      · simp only [List.map_cons, List.mem_cons]
        rintro (h1 | h2)
        · rw [injectIntoHost_rec_hostId] at h1
          exact hne h1
        · exact hnot h2

/-! ### Generic invariant transport through a batch run

`injectGo_keep` pushes a document predicate `P`, preserved by every per-host
step, through a whole run, and characterises every record produced for a given
identifier.  `injectGo_establish` additionally lets the first processing of
that identifier move the document from a precondition `Pre` into `P`-like
postcondition `Post`, producing a distinguished first record `r0`. -/

theorem injectGo_keep {css : String} {wait : Bool} {tmo : Int} {hid : String}
    {P : Doc → Prop} {r1 : ResultRec}
    (hfound : ∀ d, P d → (getHost d hid).isSome = true)
    (hself : ∀ d h, P d → getHost d hid = some h →
      P (setFirstHost d hid (injectIntoHost css hid h).1) ∧
      (injectIntoHost css hid h).2.1 = r1)
    (hother : ∀ d h hid', hid' ≠ hid → P d → getHost d hid' = some h →
      P (setFirstHost d hid' (injectIntoHost css hid' h).1)) :
    ∀ (ids : List String) (d : Doc), P d →
      P (injectGo css wait tmo d ids).1 ∧
      ∀ r ∈ (injectGo css wait tmo d ids).2.1, r.hostId = hid → r = r1 := by
  intro ids
  induction ids with
  | nil => intro d hP; exact ⟨hP, by simp [injectGo_nil]⟩
  | cons hid' rest ih =>
    intro d hP
    by_cases heq : hid' = hid
    · subst heq
      cases hg : getHost d hid' with
      | none =>
        exfalso
        have hs := hfound d hP
        rw [hg] at hs
        simp at hs
      | some h =>
        rcases hself d h hP hg with ⟨hP2, hr1⟩
        rw [injectGo_cons_found hg]
        rcases ih _ hP2 with ⟨hPf, hrec⟩
        refine ⟨hPf, ?_⟩
        intro r hr hrid
        rcases List.mem_cons.mp hr with rfl | hmem
        · exact hr1
        · exact hrec r hmem hrid
    · cases hg : getHost d hid' with
      | none =>
        by_cases hw : wait ∧ tmo ≤ 0
        · rw [injectGo_cons_div hg hw]
          exact ⟨hP, by simp⟩
        · rw [injectGo_cons_nf hg hw]
          rcases ih d hP with ⟨hPf, hrec⟩
          refine ⟨hPf, ?_⟩
          intro r hr hrid
          rcases List.mem_cons.mp hr with rfl | hmem
          · exfalso; apply heq; simpa [notFoundRec] using hrid
          · exact hrec r hmem hrid
      | some h =>
        rw [injectGo_cons_found hg]
        rcases ih _ (hother d h hid' heq hP hg) with ⟨hPf, hrec⟩
        refine ⟨hPf, ?_⟩
        intro r hr hrid
        rcases List.mem_cons.mp hr with rfl | hmem
        · exfalso; rw [injectIntoHost_rec_hostId] at hrid; exact heq hrid
        · exact hrec r hmem hrid

theorem injectGo_establish {css : String} {wait : Bool} {tmo : Int} {hid : String}
    {Pre Post : Doc → Prop} {r0 r1 : ResultRec}
    (hfound0 : ∀ d, Pre d → (getHost d hid).isSome = true)
    (hstep0 : ∀ d h, Pre d → getHost d hid = some h →
      Post (setFirstHost d hid (injectIntoHost css hid h).1) ∧
      (injectIntoHost css hid h).2.1 = r0)
    (hother0 : ∀ d h hid', hid' ≠ hid → Pre d → getHost d hid' = some h →
      Pre (setFirstHost d hid' (injectIntoHost css hid' h).1))
    (hfound1 : ∀ d, Post d → (getHost d hid).isSome = true)
    (hstep1 : ∀ d h, Post d → getHost d hid = some h →
      Post (setFirstHost d hid (injectIntoHost css hid h).1) ∧
      (injectIntoHost css hid h).2.1 = r1)
    (hother1 : ∀ d h hid', hid' ≠ hid → Post d → getHost d hid' = some h →
      Post (setFirstHost d hid' (injectIntoHost css hid' h).1)) :
    ∀ (ids : List String) (d : Doc), Pre d → hid ∈ ids →
      (injectGo css wait tmo d ids).2.2 = true →
      Post (injectGo css wait tmo d ids).1 ∧
      (injectGo css wait tmo d ids).2.1.find? (fun r => r.hostId = hid) = some r0 ∧
      ∀ r ∈ (injectGo css wait tmo d ids).2.1, r.hostId = hid → (r = r0 ∨ r = r1) := by
  intro ids
  induction ids with
  | nil => intro d _ hmem; cases hmem
  | cons hid' rest ih =>
    intro d hPre hmem hc
    by_cases heq : hid' = hid
    · subst heq
      cases hg : getHost d hid' with
      | none =>
        exfalso
        have hs := hfound0 d hPre
        rw [hg] at hs
        simp at hs
      | some h =>
        rcases hstep0 d h hPre hg with ⟨hPost2, hr0⟩
        rw [injectGo_cons_found hg]
        rcases injectGo_keep hfound1 hstep1 hother1 rest _ hPost2 with ⟨hPf, hrec⟩
        have hr0id : r0.hostId = hid' := by
          rw [← hr0]
          exact injectIntoHost_rec_hostId
        refine ⟨hPf, ?_, ?_⟩
        · rw [hr0]
          refine List.find?_cons_of_pos _ ?_
          rw [← hr0]
          simp [injectIntoHost_rec_hostId]
        · intro r hr hrid
          rcases List.mem_cons.mp hr with rfl | hmem2
          · exact Or.inl hr0
          · exact Or.inr (hrec r hmem2 hrid)
    · have hmem' : hid ∈ rest := by
        rcases List.mem_cons.mp hmem with rfl | hm
        · exact absurd rfl heq
        · exact hm
      cases hg : getHost d hid' with
      | none =>
        by_cases hw : wait ∧ tmo ≤ 0
        · rw [injectGo_cons_div hg hw] at hc
          cases hc
        · rw [injectGo_cons_nf hg hw] at hc ⊢
          rcases ih d hPre hmem' hc with ⟨hPf, hfind, hrec⟩
          refine ⟨hPf, ?_, ?_⟩
          · rw [List.find?_cons_of_neg, hfind]
            simp [notFoundRec]
            intro hcontra
            exact heq hcontra
          · intro r hr hrid
            rcases List.mem_cons.mp hr with rfl | hmem2
            · exfalso; apply heq; simpa [notFoundRec] using hrid
            · exact hrec r hmem2 hrid
      | some h =>
        rw [injectGo_cons_found hg] at hc ⊢
        rcases ih _ (hother0 d h hid' heq hPre hg) hmem' hc with ⟨hPf, hfind, hrec⟩
        refine ⟨hPf, ?_, ?_⟩
        · rw [List.find?_cons_of_neg, hfind]
          simp [injectIntoHost_rec_hostId]
          intro hcontra
          exact heq hcontra
        · intro r hr hrid
          rcases List.mem_cons.mp hr with rfl | hmem2
          · exfalso; rw [injectIntoHost_rec_hostId] at hrid; exact heq hrid
          · exact hrec r hmem2 hrid

/-! ### Lemmas about the `waitForElement` machine -/

theorem waitRun_nil {st : WState} : waitRun st [] = st := rfl

theorem waitRun_cons {st : WState} {e : WEvent} {tr : List WEvent} :
    waitRun st (e :: tr) = waitRun (waitStep st e) tr := rfl

theorem waitStep_selector {st : WState} {e : WEvent} :
    (waitStep st e).selector = st.selector := by
  cases e with
  | mutation found =>
    by_cases hc : st.observerActive = true ∧ found = true
    · simp [waitStep, hc]
    · simp [waitStep, hc]
  | timerFires =>
    by_cases hp : st.timerPending = true
    · simp [waitStep, hp]
    · simp [waitStep, hp]

theorem waitStep_outcome_frozen {st : WState} {x : WOutcome} {e : WEvent}
    (h : st.outcome = some x) : (waitStep st e).outcome = some x := by
  cases e with
  | mutation found =>
    by_cases hc : st.observerActive = true ∧ found = true
    · simp [waitStep, hc, h]
    · simp [waitStep, hc, h]
  | timerFires =>
    by_cases hp : st.timerPending = true
    · simp [waitStep, hp, h]
    · simp [waitStep, hp, h]

theorem waitRun_outcome_frozen {st : WState} {x : WOutcome}
    (h : st.outcome = some x) :
    ∀ (tr : List WEvent), (waitRun st tr).outcome = some x := by
  intro tr
  induction tr generalizing st with
  | nil => exact h
  | cons e tr ih => rw [waitRun_cons]; exact ih (waitStep_outcome_frozen h)

theorem waitStep_timer_false {st : WState} {e : WEvent}
    (h : st.timerPending = false) : (waitStep st e).timerPending = false := by
  cases e with
  | mutation found =>
    by_cases hc : st.observerActive = true ∧ found = true
    · simp [waitStep, hc, h]
    · simp [waitStep, hc, h]
  | timerFires => simp [waitStep, h]

theorem waitRun_timer_false {st : WState} (h : st.timerPending = false) :
    ∀ (tr : List WEvent), (waitRun st tr).timerPending = false := by
  intro tr
  induction tr generalizing st with
  | nil => exact h
  | cons e tr ih => rw [waitRun_cons]; exact ih (waitStep_timer_false h)

theorem waitStep_WInv {tmo : Int} {st : WState} (hinv : WInv tmo st) (e : WEvent) :
    WInv tmo (waitStep st e) := by
  obtain ⟨h1, h2, h3, h4, h5, h6, h7⟩ := hinv
  cases e with
  | mutation found =>
    by_cases hc : st.observerActive = true ∧ found = true
    · have hout : st.outcome = none := by
        cases ho : st.outcome with
        | none => rfl
        | some x =>
          exfalso
          have hfalse : st.observerActive = false := h2.mp (by rw [ho]; rfl)
          rw [hc.1] at hfalse
          cases hfalse
      have hdc : st.disconnectCalls = 0 := h3.mpr hc.1
      simp only [waitStep, hc, and_self, if_true]
      refine ⟨h1, ?_, ?_, ?_, ?_, h6, ?_⟩
      · simp [hout]
      · simp [hdc]
      · simp [hdc]
      · intro habs
        simp [hdc] at habs
      · intro _ _
        simp [hout]
    · simpa [waitStep, hc] using ⟨h1, h2, h3, h4, h5, h6, h7⟩
  | timerFires =>
    by_cases hp : st.timerPending = true
    · have hne2 : st.disconnectCalls ≠ 2 := fun habs => by
        have := (h5 habs).2
        rw [hp] at this
        cases this
      simp only [waitStep, hp, if_true]
      rcases Nat.lt_or_ge st.disconnectCalls 1 with hdc | hdc
      · -- no disconnect yet: the observer is still active and the wait pending
        have hdc0 : st.disconnectCalls = 0 := by omega
        have hact : st.observerActive = true := h3.mp hdc0
        have hout : st.outcome = none := by
          cases ho : st.outcome with
          | none => rfl
          | some x =>
            exfalso
            have hfalse : st.observerActive = false := h2.mp (by rw [ho]; rfl)
            rw [hact] at hfalse
            cases hfalse
        refine ⟨h1, ?_, ?_, ?_, ?_, ?_, ?_⟩
        · simp [hout]
        · simp [hdc0]
        · simp [hdc0]
        · intro habs
          simp [hdc0] at habs
        · intro habs
          simp at habs
        · intro habs _
          simp at habs
      · -- one disconnect already: the observer matched first, promise resolved
        have hdc1 : st.disconnectCalls = 1 := by omega
        have hout : st.outcome = some .resolved := h7 hp hdc1
        refine ⟨h1, ?_, ?_, ?_, ?_, ?_, ?_⟩
        · simp [hout]
        · simp [hdc1]
        · simp [hdc1]
        · intro _
          constructor
          · simp [hout]
          · rfl
        · intro habs
          simp at habs
        · intro habs _
          simp at habs
    · simpa [waitStep, hp] using ⟨h1, h2, h3, h4, h5, h6, h7⟩

theorem waitRun_WInv {tmo : Int} {st : WState} (hinv : WInv tmo st) :
    ∀ (tr : List WEvent), WInv tmo (waitRun st tr) := by
  intro tr
  induction tr generalizing st with
  | nil => exact hinv
  | cons e tr ih => rw [waitRun_cons]; exact ih (waitStep_WInv hinv e)

theorem waitInit_WInv {sel : String} {tmo : Int} :
    WInv tmo (waitInit sel false tmo) := by
  refine ⟨rfl, ?_, ?_, ?_, ?_, ?_, ?_⟩
  · simp [waitInit]
  · simp [waitInit]
  · simp [waitInit]
  · intro habs
    simp [waitInit] at habs
  · intro hpend
    simp [waitInit] at hpend
    omega
  · intro _ habs
    simp [waitInit] at habs

theorem waitStep_init_mutation_false {sel : String} {tmo : Int} :
    waitStep (waitInit sel false tmo) (.mutation false) = waitInit sel false tmo := by
  simp [waitStep, waitInit]

theorem waitStep_init_mutation_true {sel : String} {tmo : Int} :
    (waitStep (waitInit sel false tmo) (.mutation true)).outcome = some .resolved := by
  simp [waitStep, waitInit]

theorem waitRejected_iff {sel : String} {tmo : Int} :
    ∀ (tr : List WEvent),
      isRejectedO ((waitRun (waitInit sel false tmo) tr).outcome) =
        (decide (0 < tmo) && timerWinsIn tr) := by
  intro tr
  induction tr with
  | nil => simp [waitRun_nil, waitInit, isRejectedO, timerWinsIn]
  | cons e tr ih =>
    cases e with
    | mutation found =>
      cases found with
      | true =>
        rw [waitRun_cons,
          waitRun_outcome_frozen waitStep_init_mutation_true tr]
        simp [isRejectedO, timerWinsIn]
      | false =>
        rw [waitRun_cons, waitStep_init_mutation_false, ih]
        rfl
    | timerFires =>
      by_cases htp : 0 < tmo
      · have hstep : (waitStep (waitInit sel false tmo) .timerFires).outcome =
            some (.rejected ("Timed out waiting for " ++ sel)) := by
          simp [waitStep, waitInit, htp]
        rw [waitRun_cons, waitRun_outcome_frozen hstep tr]
        simp [isRejectedO, timerWinsIn, htp]
      · have hstep : waitStep (waitInit sel false tmo) .timerFires =
            waitInit sel false tmo := by
          simp [waitStep, waitInit, htp]
        rw [waitRun_cons, hstep, ih]
        simp [timerWinsIn, htp]

theorem waitResolved_iff_nonpos {sel : String} {tmo : Int} (hle : tmo ≤ 0) :
    ∀ (tr : List WEvent),
      ((waitRun (waitInit sel false tmo) tr).outcome = some .resolved ↔
        hasFound tr = true) := by
  intro tr
  induction tr with
  | nil => simp [waitRun_nil, waitInit, hasFound]
  | cons e tr ih =>
    cases e with
    | mutation found =>
      cases found with
      | true =>
        rw [waitRun_cons,
          waitRun_outcome_frozen waitStep_init_mutation_true tr]
        simp [hasFound]
      | false =>
        rw [waitRun_cons, waitStep_init_mutation_false]
        rw [ih]
        rfl
    | timerFires =>
      have hstep : waitStep (waitInit sel false tmo) .timerFires =
          waitInit sel false tmo := by
        have : ¬ (0 < tmo) := by omega
        simp [waitStep, waitInit, this]
      rw [waitRun_cons, hstep, ih]
      rfl

theorem waitOutcome_none_of_noMatch {sel : String} {tmo : Int} (hle : tmo ≤ 0) :
    ∀ (tr : List WEvent), hasFound tr = false →
      (waitRun (waitInit sel false tmo) tr).outcome = none := by
  intro tr
  induction tr with
  | nil => intro _; simp [waitRun_nil, waitInit]
  | cons e tr ih =>
    intro hnm
    cases e with
    | mutation found =>
      cases found with
      | true => simp [hasFound] at hnm
      | false =>
        rw [waitRun_cons, waitStep_init_mutation_false]
        exact ih (by simpa [hasFound] using hnm)
    | timerFires =>
      have hstep : waitStep (waitInit sel false tmo) .timerFires =
          waitInit sel false tmo := by
        have : ¬ (0 < tmo) := by omega
        simp [waitStep, waitInit, this]
      rw [waitRun_cons, hstep]
      exact ih (by simpa [hasFound] using hnm)

theorem waitStep_msg {st : WState} {e : WEvent}
    (h : ∀ m, st.outcome = some (.rejected m) →
      m = "Timed out waiting for " ++ st.selector) :
    ∀ m, (waitStep st e).outcome = some (.rejected m) →
      m = "Timed out waiting for " ++ (waitStep st e).selector := by
  intro m hm
  rw [waitStep_selector]
  cases e with
  | mutation found =>
    by_cases hc : st.observerActive = true ∧ found = true
    · simp only [waitStep, hc, and_self, if_true] at hm
      cases ho : st.outcome with
      | none => rw [ho] at hm; simp at hm
      | some x =>
        rw [ho] at hm
        simp at hm
        exact h m (by rw [ho, hm])
    · simp only [waitStep, if_neg hc] at hm
      exact h m hm
  | timerFires =>
    by_cases hp : st.timerPending = true
    · simp only [waitStep, hp, if_true] at hm
      cases ho : st.outcome with
      | none =>
        rw [ho] at hm
        simp at hm
        exact hm.symm
      | some x =>
        rw [ho] at hm
        simp at hm
        exact h m (by rw [ho, hm])
    · simp only [waitStep, if_neg hp] at hm
      exact h m hm

theorem waitRun_msg {st : WState}
    (h : ∀ m, st.outcome = some (.rejected m) →
      m = "Timed out waiting for " ++ st.selector) :
    ∀ (tr : List WEvent) (m : String),
      (waitRun st tr).outcome = some (.rejected m) →
      m = "Timed out waiting for " ++ (waitRun st tr).selector := by
  intro tr
  induction tr generalizing st with
  | nil => exact h
  | cons e tr ih =>
    intro m
    rw [waitRun_cons]
    exact ih (waitStep_msg h) m

theorem waitRun_selector {st : WState} :
    ∀ (tr : List WEvent), (waitRun st tr).selector = st.selector := by
  intro tr
  induction tr generalizing st with
  | nil => rfl
  | cons e tr ih =>
    rw [waitRun_cons, ih, waitStep_selector]

/-! ### Claim theorems -/

/-- C4: for every document in which each open shadow root holds at most one
node with id `STYLE_ID`, any run of `injectCssIntoPlasmoHost` (with any CSS
text and options) preserves this invariant: afterwards every open shadow root
still holds at most one `STYLE_ID` node — the upsert updates the existing node
in place or appends exactly one new node, never a second one. -/
theorem C4_at_most_one_style_invariant (css : String) (wait : Bool) (tmo : Int)
    (d : Doc) (hpre : docAtMostOne d = true) :
    docAtMostOne (injectCssIntoPlasmoHost css wait tmo d).1 = true :=
  injectGo_atMostOne HOST_IDS d hpre

theorem C4_witness :
    docAtMostOne (injectCssIntoPlasmoHost "a" false 0
      ⟨[⟨"qaiSidebarShadowHostEl", .openRoot [], true, false⟩]⟩).1 = true :=
  C4_at_most_one_style_invariant "a" false 0
    ⟨[⟨"qaiSidebarShadowHostEl", .openRoot [], true, false⟩]⟩ (by decide)

/-- C6: whenever a call to `injectCssIntoPlasmoHost` completes, the returned
list has exactly one record per entry of `HOST_IDS` (including the duplicate),
in the same order — the i-th record's identifier is the i-th configured
identifier — and every record carries either a failure reason from
{host-not-found, attach-failed, closed-or-no-attach} with `ok = false`, or a
success mode from {existing-open-shadowRoot, attached-new-open-shadowRoot}
with `ok = true`, never both. -/
theorem C6_result_shape (css : String) (wait : Bool) (tmo : Int) (d : Doc)
    (hc : (injectCssIntoPlasmoHost css wait tmo d).2.2 = true) :
    (injectCssIntoPlasmoHost css wait tmo d).2.1.map (·.hostId) = HOST_IDS ∧
    ∀ r ∈ (injectCssIntoPlasmoHost css wait tmo d).2.1, validRec r = true :=
  ⟨injectGo_map_of_complete HOST_IDS d hc, injectGo_valid HOST_IDS d⟩

theorem C6_witness :
    (injectCssIntoPlasmoHost "x" false 0 ⟨[]⟩).2.1.map (·.hostId) = HOST_IDS :=
  (C6_result_shape "x" false 0 ⟨[]⟩ (by decide)).1

/-- C7: whenever every per-identifier wait terminates (no-wait mode, or wait
mode with a positive timeout), `injectCssIntoPlasmoHost` completes and resolves
with one record per configured identifier even if every identifier failed; a
rejected `waitForElement` (or a null no-wait lookup) is caught and translated
into a record with `ok = false` and reason `host-not-found`, and processing
continues with the next identifier. -/
theorem C7_failures_translated (css : String) (wait : Bool) (tmo : Int) (d : Doc)
    (hterm : wait = false ∨ 0 < tmo) :
    (injectCssIntoPlasmoHost css wait tmo d).2.2 = true ∧
    (injectCssIntoPlasmoHost css wait tmo d).2.1.map (·.hostId) = HOST_IDS ∧
    ∀ r ∈ (injectCssIntoPlasmoHost css wait tmo d).2.1,
      getHost d r.hostId = none → r = notFoundRec r.hostId := by
  have hc : (injectCssIntoPlasmoHost css wait tmo d).2.2 = true :=
    injectGo_complete hterm HOST_IDS d
  refine ⟨hc, injectGo_map_of_complete HOST_IDS d hc, ?_⟩
  intro r hr hg
  exact injectGo_notFound_rec HOST_IDS d hg r hr rfl

theorem C7_witness :
    (injectCssIntoPlasmoHost "x" true 8000 ⟨[]⟩).2.2 = true :=
  (C7_failures_translated "x" true 8000 ⟨[]⟩ (Or.inr (by decide))).1

/-- C9: with `wait = true` and a non-positive `waitTimeout`, if some configured
identifier matches no host, `injectCssIntoPlasmoHost` never resolves: the run
does not complete, the records pushed before the suspension cover only a
proper prefix of `HOST_IDS` that excludes the missing identifier, and — at the
waiter level — a pending `waitForElement` with a disabled timeout never
settles on any trace without a matching mutation. -/
theorem C9_disabled_timeout_never_resolves (css : String) (tmo : Int)
    (hid : String) (d : Doc) (htm : tmo ≤ 0) (hmem : hid ∈ HOST_IDS)
    (hg : getHost d hid = none) :
    ((injectCssIntoPlasmoHost css true tmo d).2.2 = false ∧
     (injectCssIntoPlasmoHost css true tmo d).2.1.map (·.hostId) =
       HOST_IDS.take (injectCssIntoPlasmoHost css true tmo d).2.1.length ∧
     (injectCssIntoPlasmoHost css true tmo d).2.1.length < HOST_IDS.length ∧
     hid ∉ (injectCssIntoPlasmoHost css true tmo d).2.1.map (·.hostId)) ∧
    ∀ (sel : String) (tr : List WEvent), hasFound tr = false →
      (waitRun (waitInit sel false tmo) tr).outcome = none := by
  refine ⟨injectGo_diverge htm HOST_IDS d hmem hg, ?_⟩
  intro sel tr hn
  exact waitOutcome_none_of_noMatch htm tr hn

theorem C9_witness :
    (injectCssIntoPlasmoHost "x" true 0 ⟨[]⟩).2.2 = false :=
  (C9_disabled_timeout_never_resolves "x" 0 "qaiUnderlineWordShadowHostEl" ⟨[]⟩
    (by decide) (by decide) (by decide)).1.1

/-- C8: `waitForElement(selector, timeout)` rejects iff `timeout > 0`, no
matching element exists at call time, and the timeout callback runs before any
matching mutation (the element never appears before the timeout elapses); a
rejection carries the message `Timed out waiting for <selector>`; and with a
non-positive timeout no timer is ever armed and the call never rejects,
resolving exactly when the element is present at call time or a matching
mutation occurs. -/
theorem C8_reject_characterisation (sel : String) (present : Bool) (tmo : Int)
    (tr : List WEvent) :
    (isRejectedO ((waitRun (waitInit sel present tmo) tr).outcome) = true ↔
      (present = false ∧ 0 < tmo ∧ timerWinsIn tr = true)) ∧
    (∀ m, (waitRun (waitInit sel present tmo) tr).outcome = some (.rejected m) →
      m = "Timed out waiting for " ++ sel) ∧
    (tmo ≤ 0 →
      (waitRun (waitInit sel present tmo) tr).timerPending = false ∧
      ((waitRun (waitInit sel present tmo) tr).outcome = some .resolved ↔
        (present = true ∨ hasFound tr = true))) := by
  cases present with
  | true =>
    have hres : (waitRun (waitInit sel true tmo) tr).outcome = some .resolved :=
      waitRun_outcome_frozen rfl tr
    refine ⟨?_, ?_, ?_⟩
    · rw [hres]
      simp [isRejectedO]
    · intro m hm
      rw [hres] at hm
      cases hm
    · intro _
      refine ⟨waitRun_timer_false rfl tr, ?_⟩
      rw [hres]
      simp
  | false =>
    refine ⟨?_, ?_, ?_⟩
    · rw [waitRejected_iff tr]
      simp
    · intro m hm
      have hmsg := @waitRun_msg (waitInit sel false tmo)
        (by intro m' hm'; simp [waitInit] at hm') tr m hm
      rw [waitRun_selector tr] at hmsg
      exact hmsg
    · intro hle
      refine ⟨?_, ?_⟩
      · refine waitRun_timer_false ?_ tr
        simp [waitInit]
        omega
      · rw [waitResolved_iff_nonpos hle tr]
        simp

theorem C8_witness :
    isRejectedO ((waitRun
      (waitInit "plasmo-csui#qaiSidebarShadowHostEl" false 5000)
      [.mutation false, .timerFires]).outcome) = true :=
  (C8_reject_characterisation "plasmo-csui#qaiSidebarShadowHostEl" false 5000
    [.mutation false, .timerFires]).1.mpr ⟨rfl, by decide, by decide⟩

/-- C2 counterexample: with a positive timeout and the element initially
absent, deliver a matching mutation (the observer disconnects and resolves)
and then let the never-cancelled timer fire: `observer.disconnect()` has then
been called twice, the second call happening after the promise has settled —
refuting that the observer is disconnected exactly once and that no second
disconnect occurs after settlement. -/
theorem C2_counterexample :
    (waitRun (waitInit "plasmo-csui#qaiSidebarShadowHostEl" false 5000)
      [.mutation true, .timerFires]).disconnectCalls = 2 ∧
    (waitRun (waitInit "plasmo-csui#qaiSidebarShadowHostEl" false 5000)
      [.mutation true, .timerFires]).outcome = some .resolved ∧
    ¬ (waitRun (waitInit "plasmo-csui#qaiSidebarShadowHostEl" false 5000)
        [.mutation true, .timerFires]).disconnectCalls = 1 := by
  refine ⟨?_, ?_, ?_⟩ <;> decide

/-- C2 (amended): when no element matches at call time, exactly one
document-wide observer is installed; it stops observing exactly when the
promise settles (at the first of match found / timeout), so no observer
outlives the wait; `disconnect()` is called at least once exactly when the
promise has settled, and at most twice in total — a second call happens only
when the un-cancelled timer fires after the observer already matched and
resolved, and is a no-op on the already-disconnected observer. -/
theorem C2_amended_observer_lifecycle (sel : String) (tmo : Int)
    (tr : List WEvent) :
    (waitRun (waitInit sel false tmo) tr).observersInstalled = 1 ∧
    ((waitRun (waitInit sel false tmo) tr).outcome.isSome = true ↔
      (waitRun (waitInit sel false tmo) tr).observerActive = false) ∧
    ((waitRun (waitInit sel false tmo) tr).outcome.isSome = true ↔
      1 ≤ (waitRun (waitInit sel false tmo) tr).disconnectCalls) ∧
    (waitRun (waitInit sel false tmo) tr).disconnectCalls ≤ 2 ∧
    ((waitRun (waitInit sel false tmo) tr).disconnectCalls = 2 →
      (waitRun (waitInit sel false tmo) tr).outcome = some .resolved ∧
      (waitRun (waitInit sel false tmo) tr).timerPending = false) := by
  obtain ⟨h1, h2, h3, h4, h5, h6, h7⟩ :=
    waitRun_WInv (@waitInit_WInv sel tmo) tr
  refine ⟨h1, h2, ?_, h4, h5⟩
  rw [h2]
  constructor
  · intro hact
    have hne : (waitRun (waitInit sel false tmo) tr).disconnectCalls ≠ 0 := by
      intro h0
      have := h3.mp h0
      rw [hact] at this
      cases this
    omega
  · intro hge
    cases hA : (waitRun (waitInit sel false tmo) tr).observerActive with
    | false => rfl
    | true =>
      exfalso
      have := h3.mpr hA
      omega

theorem C2_amended_witness :
    (waitRun (waitInit "plasmo-csui#qaiSidebarShadowHostEl" false 5000)
      []).observersInstalled = 1 :=
  (C2_amended_observer_lifecycle "plasmo-csui#qaiSidebarShadowHostEl" 5000 []).1

/-- C1 counterexample: a host with a closed shadow root (accessible
`shadowRoot` reads null, `attachShadow` is a function that raises).  The run
records reason `attach-failed` for it — not `closed-or-no-attach` — and the
`attachShadow` call site does execute, so shadow-root creation is attempted,
refuting the claim. -/
theorem C1_counterexample :
    (injectCssIntoPlasmoHost "x" false 0
        ⟨[⟨"qaiSidebarShadowHostEl", .closedRoot [], true, false⟩]⟩).2.1.find?
        (fun r => r.hostId = "qaiSidebarShadowHostEl") =
      some ⟨"qaiSidebarShadowHostEl", false, none, some "attach-failed"⟩ ∧
    (injectIntoHost "x" "qaiSidebarShadowHostEl"
        ⟨"qaiSidebarShadowHostEl", .closedRoot [], true, false⟩).2.2 = true ∧
    "attach-failed" ≠ "closed-or-no-attach" := by
  refine ⟨?_, ?_, ?_⟩ <;> decide

/-- C1 (amended): for every configured identifier whose host carries a closed
shadow root while `attachShadow` is still a function, `injectCssIntoPlasmoHost`
does attempt shadow-root creation — the `attachShadow` call executes and
raises — and every record for that identifier is
`{identifier, success = false, reason = 'attach-failed'}` (not
`closed-or-no-attach`, which is reserved for hosts where `attachShadow` is not
a function); the host is left completely unchanged, so no style node is ever
created or made visible for it. -/
theorem C1_amended_closed_root (css : String) (wait : Bool) (tmo : Int)
    (d : Doc) (hid : String) (h : Host) (ns : List ShadowNode)
    (hmem : hid ∈ HOST_IDS) (hg : getHost d hid = some h)
    (hsh : h.shadow = .closedRoot ns) (hfn : h.attachIsFunction = true) :
    (injectIntoHost css hid h).2.2 = true ∧
    (injectIntoHost css hid h).1 = h ∧
    getHost (injectCssIntoPlasmoHost css wait tmo d).1 hid = some h ∧
    (∀ r ∈ (injectCssIntoPlasmoHost css wait tmo d).2.1, r.hostId = hid →
      r = attachFailedRec hid) ∧
    ((injectCssIntoPlasmoHost css wait tmo d).2.2 = true →
      ∃ r ∈ (injectCssIntoPlasmoHost css wait tmo d).2.1, r.hostId = hid) := by
  have hhid : h.hostId = hid := by simpa using List.find?_some hg
  have hfound : ∀ d', getHost d' hid = some h → (getHost d' hid).isSome = true := by
    intro d' hP
    rw [hP]
    rfl
  have hself : ∀ d' h', getHost d' hid = some h → getHost d' hid = some h' →
      getHost (setFirstHost d' hid (injectIntoHost css hid h').1) hid = some h ∧
      (injectIntoHost css hid h').2.1 = attachFailedRec hid := by
    intro d' h' hP hg'
    rw [hP] at hg'
    cases hg'
    rw [injectIntoHost_closed hsh hfn]
    exact ⟨getHost_setFirst_same hP hhid, rfl⟩
  have hother : ∀ d' h'' hid', hid' ≠ hid → getHost d' hid = some h →
      getHost d' hid' = some h'' →
      getHost (setFirstHost d' hid' (injectIntoHost css hid' h'').1) hid = some h := by
    intro d' h'' hid' hne hP hg'
    have hxid : (injectIntoHost css hid' h'').1.hostId = hid' := by
      rw [injectIntoHost_hostId]
      simpa using List.find?_some hg'
    rw [getHost_setFirst_ne (fun hcontra => hne hcontra.symm) hxid]
    exact hP
  have hkeep := @injectGo_keep css wait tmo hid
    (fun d' => getHost d' hid = some h) (attachFailedRec hid)
    hfound hself hother HOST_IDS d hg
  refine ⟨?_, ?_, hkeep.1, hkeep.2, ?_⟩
  · rw [injectIntoHost_closed hsh hfn]
  · rw [injectIntoHost_closed hsh hfn]
  · intro hc
    have hmap := injectGo_map_of_complete HOST_IDS d hc
    have : hid ∈ (injectGo css wait tmo d HOST_IDS).2.1.map (·.hostId) := by
      rw [hmap]
      exact hmem
    rcases List.mem_map.mp this with ⟨r, hr, hrid⟩
    exact ⟨r, hr, hrid⟩

theorem C1_amended_witness :
    getHost (injectCssIntoPlasmoHost "x" false 0
        ⟨[⟨"qaiSidebarShadowHostEl", .closedRoot [], true, false⟩]⟩).1
      "qaiSidebarShadowHostEl" =
      some ⟨"qaiSidebarShadowHostEl", .closedRoot [], true, false⟩ :=
  (C1_amended_closed_root "x" false 0
    ⟨[⟨"qaiSidebarShadowHostEl", .closedRoot [], true, false⟩]⟩
    "qaiSidebarShadowHostEl"
    ⟨"qaiSidebarShadowHostEl", .closedRoot [], true, false⟩ []
    (by decide) (by decide) rfl rfl).2.2.1

/-- Processing a different identifier never changes what `querySelector`
returns for `hid`. -/
theorem getHost_stable_other {css : String} {d' : Doc} {h'' : Host}
    {hid hid' : String} (hne : hid' ≠ hid) (hg' : getHost d' hid' = some h'') :
    getHost (setFirstHost d' hid' (injectIntoHost css hid' h'').1) hid =
      getHost d' hid := by
  have hxid : (injectIntoHost css hid' h'').1.hostId = hid' := by
    rw [injectIntoHost_hostId]
    simpa using List.find?_some hg'
  exact getHost_setFirst_ne (fun hcontra => hne hcontra.symm) hxid

/-- C10: if a host's open shadow root already contains an element bearing id
`STYLE_ID` — even one that is not a style element — a completed run of
`injectCssIntoPlasmoHost` overwrites that (first) element's `textContent` with
the supplied CSS and reports success with mode `existing-open-shadowRoot`,
without ever creating an actual style element in that shadow root: the upsert
is keyed on the id alone, the node's tag plays no role, and the root's tag
list is unchanged. -/
theorem C10_upsert_keyed_on_id (css : String) (wait : Bool) (tmo : Int)
    (d : Doc) (hid : String) (h : Host) (ns : List ShadowNode) (n0 : ShadowNode)
    (hmem : hid ∈ HOST_IDS) (hg : getHost d hid = some h)
    (hsh : h.shadow = .openRoot ns)
    (hfind : ns.find? (fun n => n.id = STYLE_ID) = some n0)
    (htag : n0.tag ≠ "style")
    (hc : (injectCssIntoPlasmoHost css wait tmo d).2.2 = true) :
    getHost (injectCssIntoPlasmoHost css wait tmo d).1 hid =
      some { h with shadow := .openRoot (updateFirst (fun n => n.id = STYLE_ID)
        (fun n => { n with textContent := css }) ns) } ∧
    (updateFirst (fun n => n.id = STYLE_ID)
        (fun n => { n with textContent := css }) ns).map (·.tag) =
      ns.map (·.tag) ∧
    (updateFirst (fun n => n.id = STYLE_ID)
        (fun n => { n with textContent := css }) ns).find?
        (fun n => n.id = STYLE_ID) = some { n0 with textContent := css } ∧
    (∀ r ∈ (injectCssIntoPlasmoHost css wait tmo d).2.1, r.hostId = hid →
      r = existingRec hid) ∧
    ∃ r ∈ (injectCssIntoPlasmoHost css wait tmo d).2.1, r.hostId = hid := by
  have hhid : h.hostId = hid := by simpa using List.find?_some hg
  have hp0 : decide (n0.id = STYLE_ID) = true := by
    simpa using List.find?_some hfind
  have hmem0 : n0 ∈ ns := List.mem_of_find?_eq_some hfind
  have hany : ns.any (fun n => n.id = STYLE_ID) = true := by
    rw [List.any_eq_true]
    exact ⟨n0, hmem0, hp0⟩
  have hanyU : (updateFirst (fun n => n.id = STYLE_ID)
      (fun n => { n with textContent := css }) ns).any
      (fun n => n.id = STYLE_ID) = true := by
    rw [@any_updateFirst ShadowNode (fun n => n.id = STYLE_ID)
      (fun n => n.id = STYLE_ID) (fun n => { n with textContent := css })
      (fun a ha => rfl) ns]
    exact hany
  have hidem : updateFirst (fun n => n.id = STYLE_ID)
      (fun n => { n with textContent := css })
      (updateFirst (fun n => n.id = STYLE_ID)
        (fun n => { n with textContent := css }) ns) =
      updateFirst (fun n => n.id = STYLE_ID)
        (fun n => { n with textContent := css }) ns :=
    @updateFirst_idem ShadowNode (fun n => n.id = STYLE_ID)
      (fun n => { n with textContent := css }) (fun a ha => ha) (fun a => rfl) ns
  have hfound0 : ∀ d', getHost d' hid = some h → (getHost d' hid).isSome = true := by
    intro d' hP
    rw [hP]
    rfl
  have hstep0 : ∀ d' h', getHost d' hid = some h → getHost d' hid = some h' →
      getHost (setFirstHost d' hid (injectIntoHost css hid h').1) hid =
        some { h with shadow := .openRoot (updateFirst (fun n => n.id = STYLE_ID)
          (fun n => { n with textContent := css }) ns) } ∧
      (injectIntoHost css hid h').2.1 = existingRec hid := by
    intro d' h' hP hg'
    rw [hP] at hg'
    cases hg'
    rw [injectIntoHost_open_existing hsh hany]
    exact ⟨getHost_setFirst_same hP hhid, rfl⟩
  have hother0 : ∀ d' h'' hid', hid' ≠ hid → getHost d' hid = some h →
      getHost d' hid' = some h'' →
      getHost (setFirstHost d' hid' (injectIntoHost css hid' h'').1) hid =
        some h := by
    intro d' h'' hid' hne hP hg'
    rw [getHost_stable_other hne hg']
    exact hP
  have hfound1 : ∀ d', getHost d' hid =
      some { h with shadow := .openRoot (updateFirst (fun n => n.id = STYLE_ID)
        (fun n => { n with textContent := css }) ns) } →
      (getHost d' hid).isSome = true := by
    intro d' hP
    rw [hP]
    rfl
  have hstep1 : ∀ d' h', getHost d' hid =
      some { h with shadow := .openRoot (updateFirst (fun n => n.id = STYLE_ID)
        (fun n => { n with textContent := css }) ns) } →
      getHost d' hid = some h' →
      getHost (setFirstHost d' hid (injectIntoHost css hid h').1) hid =
        some { h with shadow := .openRoot (updateFirst (fun n => n.id = STYLE_ID)
          (fun n => { n with textContent := css }) ns) } ∧
      (injectIntoHost css hid h').2.1 = existingRec hid := by
    intro d' h' hP hg'
    rw [hP] at hg'
    cases hg'
    rw [injectIntoHost_open_existing rfl hanyU]
    rw [hidem]
    exact ⟨getHost_setFirst_same hP hhid, rfl⟩
  have hother1 : ∀ d' h'' hid', hid' ≠ hid →
      getHost d' hid = some { h with shadow := .openRoot (updateFirst
        (fun n => n.id = STYLE_ID)
        (fun n => { n with textContent := css }) ns) } →
      getHost d' hid' = some h'' →
      getHost (setFirstHost d' hid' (injectIntoHost css hid' h'').1) hid =
        some { h with shadow := .openRoot (updateFirst (fun n => n.id = STYLE_ID)
          (fun n => { n with textContent := css }) ns) } := by
    intro d' h'' hid' hne hP hg'
    rw [getHost_stable_other hne hg']
    exact hP
  have hest := @injectGo_establish css wait tmo hid
    (fun d' => getHost d' hid = some h)
    (fun d' => getHost d' hid =
      some { h with shadow := .openRoot (updateFirst (fun n => n.id = STYLE_ID)
        (fun n => { n with textContent := css }) ns) })
    (existingRec hid) (existingRec hid)
    hfound0 hstep0 hother0 hfound1 hstep1 hother1 HOST_IDS d hg hmem hc
  have htags : (updateFirst (fun n => n.id = STYLE_ID)
      (fun n => { n with textContent := css }) ns).map (·.tag) =
      ns.map (·.tag) :=
    @map_updateFirst ShadowNode String (fun n => n.id = STYLE_ID)
      (fun n => { n with textContent := css }) (fun n => n.tag)
      (fun a ha => rfl) ns
  have hfindU : (updateFirst (fun n => n.id = STYLE_ID)
      (fun n => { n with textContent := css }) ns).find?
      (fun n => n.id = STYLE_ID) = some { n0 with textContent := css } :=
    find?_updateFirst hfind hp0
  refine ⟨hest.1, htags, hfindU, ?_, ?_⟩
  · intro r hr hrid
    rcases hest.2.2 r hr hrid with hcase | hcase
    · exact hcase
    · exact hcase
  · have hmap := injectGo_map_of_complete HOST_IDS d hc
    have : hid ∈ (injectGo css wait tmo d HOST_IDS).2.1.map (·.hostId) := by
      rw [hmap]
      exact hmem
    rcases List.mem_map.mp this with ⟨r, hr, hrid⟩
    exact ⟨r, hr, hrid⟩

theorem C10_witness :
    getHost (injectCssIntoPlasmoHost "x" false 0
        ⟨[⟨"qaiUnderlineWordShadowHostEl",
           .openRoot [⟨"my-custom-shadow-style", "div", "old"⟩],
           true, false⟩]⟩).1 "qaiUnderlineWordShadowHostEl" =
      some ⟨"qaiUnderlineWordShadowHostEl",
        .openRoot (updateFirst (fun n => n.id = STYLE_ID)
          (fun n => { n with textContent := "x" })
          [⟨"my-custom-shadow-style", "div", "old"⟩]),
        true, false⟩ :=
  (C10_upsert_keyed_on_id "x" false 0
    ⟨[⟨"qaiUnderlineWordShadowHostEl",
       .openRoot [⟨"my-custom-shadow-style", "div", "old"⟩], true, false⟩]⟩
    "qaiUnderlineWordShadowHostEl"
    ⟨"qaiUnderlineWordShadowHostEl",
      .openRoot [⟨"my-custom-shadow-style", "div", "old"⟩], true, false⟩
    [⟨"my-custom-shadow-style", "div", "old"⟩]
    ⟨"my-custom-shadow-style", "div", "old"⟩
    (by decide) (by decide) rfl (by decide) (by decide) (by decide)).1

/-- One processing step of a present host with an open shadow root holding at
most one `STYLE_ID` node: afterwards the root holds exactly one such node,
its text is the supplied CSS, and the record is the `existing-open-shadowRoot`
success. -/
theorem styledWith_step {css hid : String} {d : Doc} {h : Host}
    {ns : List ShadowNode} (hg : getHost d hid = some h)
    (hsh : h.shadow = .openRoot ns) (hcnt : countStyleId ns ≤ 1) :
    styledWith css (setFirstHost d hid (injectIntoHost css hid h).1) hid ∧
    (injectIntoHost css hid h).2.1 = existingRec hid := by
  have hhid : h.hostId = hid := by simpa using List.find?_some hg
  cases hany : ns.any (fun n => n.id = STYLE_ID) with
  | true =>
    rw [injectIntoHost_open_existing hsh hany]
    refine ⟨⟨_, _, getHost_setFirst_same hg hhid, rfl, ?_, ?_⟩, rfl⟩
    · have hpos : 0 < countStyleId ns := countStyleId_pos_of_any hany
      have heq : countStyleId (updateFirst (fun n => n.id = STYLE_ID)
          (fun n => { n with textContent := css }) ns) = countStyleId ns :=
        countStyleId_updateFirst
      omega
    · exact texts_updateFirst hcnt
  | false =>
    rw [injectIntoHost_open_new hsh hany]
    refine ⟨⟨_, _, getHost_setFirst_same hg hhid, rfl, ?_, ?_⟩, rfl⟩
    · have h0 : countStyleId ns = 0 := countStyleId_of_any_false hany
      unfold countStyleId at h0 ⊢
      rw [List.countP_append, h0]
      simp
    · intro n hn hnid
      rcases List.mem_append.mp hn with hmem | hmem
      · exfalso
        have h0 : countStyleId ns = 0 := countStyleId_of_any_false hany
        unfold countStyleId at h0
        have := List.countP_eq_zero.mp h0 n hmem
        simp [hnid] at this
      · rw [List.mem_singleton.mp hmem]

/-- C3 counterexample: a host whose open shadow root already holds two
(non-style) nodes with id `STYLE_ID`.  Running the injection twice with the
same CSS leaves two `STYLE_ID` nodes in that root, not exactly one: the claim
fails without a precondition bounding the pre-existing `STYLE_ID` nodes. -/
theorem C3_counterexample :
    (getHost (injectCssIntoPlasmoHost "c" false 0
        (injectCssIntoPlasmoHost "c" false 0
          ⟨[⟨"qaiUnderlineWordShadowHostEl",
             .openRoot [⟨"my-custom-shadow-style", "div", "a"⟩,
                        ⟨"my-custom-shadow-style", "div", "b"⟩],
             true, false⟩]⟩).1).1 "qaiUnderlineWordShadowHostEl").map
      openStyleCount = some 2 ∧
    ¬ (getHost (injectCssIntoPlasmoHost "c" false 0
        (injectCssIntoPlasmoHost "c" false 0
          ⟨[⟨"qaiUnderlineWordShadowHostEl",
             .openRoot [⟨"my-custom-shadow-style", "div", "a"⟩,
                        ⟨"my-custom-shadow-style", "div", "b"⟩],
             true, false⟩]⟩).1).1 "qaiUnderlineWordShadowHostEl").map
      openStyleCount = some 1 := by
  refine ⟨?_, ?_⟩ <;> decide

/-- C3 (amended): for every CSS text and every configured identifier whose
host is present with an open shadow root holding AT MOST ONE node with id
`STYLE_ID` (the precondition the counterexample forces), two completed
successive runs of `injectCssIntoPlasmoHost` with that CSS leave exactly one
`STYLE_ID` node in that shadow root, with text content equal to the CSS, and
every record the second call produces for that identifier is the
`existing-open-shadowRoot` success (and at least one such record exists). -/
theorem C3_amended_idempotent (css : String) (wait : Bool) (tmo : Int)
    (d : Doc) (hid : String) (h : Host) (ns : List ShadowNode)
    (hmem : hid ∈ HOST_IDS) (hg : getHost d hid = some h)
    (hsh : h.shadow = .openRoot ns) (hcnt : countStyleId ns ≤ 1)
    (hc1 : (injectCssIntoPlasmoHost css wait tmo d).2.2 = true) :
    styledWith css (injectCssIntoPlasmoHost css wait tmo
      (injectCssIntoPlasmoHost css wait tmo d).1).1 hid ∧
    (∀ r ∈ (injectCssIntoPlasmoHost css wait tmo
        (injectCssIntoPlasmoHost css wait tmo d).1).2.1,
      r.hostId = hid → r = existingRec hid) ∧
    (injectCssIntoPlasmoHost css wait tmo
      (injectCssIntoPlasmoHost css wait tmo d).1).2.2 = true ∧
    ∃ r ∈ (injectCssIntoPlasmoHost css wait tmo
      (injectCssIntoPlasmoHost css wait tmo d).1).2.1, r.hostId = hid := by
  have hfound0 : ∀ d', (∃ h' ns', getHost d' hid = some h' ∧
      h'.shadow = .openRoot ns' ∧ countStyleId ns' ≤ 1) →
      (getHost d' hid).isSome = true := by
    rintro d' ⟨h0, ns0, hg0, _, _⟩
    rw [hg0]
    rfl
  have hstep0 : ∀ d' h', (∃ h0 ns0, getHost d' hid = some h0 ∧
      h0.shadow = .openRoot ns0 ∧ countStyleId ns0 ≤ 1) →
      getHost d' hid = some h' →
      styledWith css (setFirstHost d' hid (injectIntoHost css hid h').1) hid ∧
      (injectIntoHost css hid h').2.1 = existingRec hid := by
    rintro d' h' ⟨h0, ns0, hg0, hsh0, hcnt0⟩ hg'
    rw [hg0] at hg'
    cases hg'
    exact styledWith_step hg0 hsh0 hcnt0
  have hother0 : ∀ d' h'' hid', hid' ≠ hid →
      (∃ h0 ns0, getHost d' hid = some h0 ∧ h0.shadow = .openRoot ns0 ∧
        countStyleId ns0 ≤ 1) →
      getHost d' hid' = some h'' →
      (∃ h0 ns0, getHost (setFirstHost d' hid'
          (injectIntoHost css hid' h'').1) hid = some h0 ∧
        h0.shadow = .openRoot ns0 ∧ countStyleId ns0 ≤ 1) := by
    rintro d' h'' hid' hne ⟨h0, ns0, hg0, hsh0, hcnt0⟩ hg'
    refine ⟨h0, ns0, ?_, hsh0, hcnt0⟩
    rw [getHost_stable_other hne hg']
    exact hg0
  have hfound1 : ∀ d', styledWith css d' hid → (getHost d' hid).isSome = true := by
    rintro d' ⟨h1, ns1, hg1, _, _, _⟩
    rw [hg1]
    rfl
  have hstep1 : ∀ d' h', styledWith css d' hid → getHost d' hid = some h' →
      styledWith css (setFirstHost d' hid (injectIntoHost css hid h').1) hid ∧
      (injectIntoHost css hid h').2.1 = existingRec hid := by
    rintro d' h' ⟨h1, ns1, hg1, hsh1, hcnt1, _⟩ hg'
    rw [hg1] at hg'
    cases hg'
    exact styledWith_step hg1 hsh1 (le_of_eq hcnt1)
  have hother1 : ∀ d' h'' hid', hid' ≠ hid → styledWith css d' hid →
      getHost d' hid' = some h'' →
      styledWith css (setFirstHost d' hid'
        (injectIntoHost css hid' h'').1) hid := by
    rintro d' h'' hid' hne ⟨h1, ns1, hg1, hsh1, hcnt1, ht1⟩ hg'
    refine ⟨h1, ns1, ?_, hsh1, hcnt1, ht1⟩
    rw [getHost_stable_other hne hg']
    exact hg1
  have hest := @injectGo_establish css wait tmo hid
    (fun d' => ∃ h0 ns0, getHost d' hid = some h0 ∧
      h0.shadow = .openRoot ns0 ∧ countStyleId ns0 ≤ 1)
    (fun d' => styledWith css d' hid)
    (existingRec hid) (existingRec hid)
    hfound0 hstep0 hother0 hfound1 hstep1 hother1 HOST_IDS d
    ⟨h, ns, hg, hsh, hcnt⟩ hmem hc1
  have hmap1 : (injectCssIntoPlasmoHost css wait tmo d).1.hosts.map (·.hostId) =
      d.hosts.map (·.hostId) := injectGo_hostIds HOST_IDS d
  have hc2 : (injectCssIntoPlasmoHost css wait tmo
      (injectCssIntoPlasmoHost css wait tmo d).1).2.2 = true := by
    have hcongr := @injectGo_c_congr css css wait tmo HOST_IDS d
      (injectCssIntoPlasmoHost css wait tmo d).1 hmap1
    exact hcongr.trans hc1
  have hkeep2 := @injectGo_keep css wait tmo hid
    (fun d' => styledWith css d' hid) (existingRec hid)
    hfound1 hstep1 hother1 HOST_IDS
    (injectCssIntoPlasmoHost css wait tmo d).1 hest.1
  refine ⟨hkeep2.1, hkeep2.2, hc2, ?_⟩
  have hmap2 := injectGo_map_of_complete HOST_IDS
    (injectCssIntoPlasmoHost css wait tmo d).1 hc2
  have : hid ∈ (injectGo css wait tmo
      (injectCssIntoPlasmoHost css wait tmo d).1 HOST_IDS).2.1.map (·.hostId) := by
    rw [hmap2]
    exact hmem
  rcases List.mem_map.mp this with ⟨r, hr, hrid⟩
  exact ⟨r, hr, hrid⟩

theorem C3_amended_witness :
    styledWith "c" (injectCssIntoPlasmoHost "c" false 0
      (injectCssIntoPlasmoHost "c" false 0
        ⟨[⟨"qaiUnderlineWordShadowHostEl", .openRoot [], true, false⟩]⟩).1).1
      "qaiUnderlineWordShadowHostEl" :=
  (C3_amended_idempotent "c" false 0
    ⟨[⟨"qaiUnderlineWordShadowHostEl", .openRoot [], true, false⟩]⟩
    "qaiUnderlineWordShadowHostEl"
    ⟨"qaiUnderlineWordShadowHostEl", .openRoot [], true, false⟩ []
    (by decide) (by decide) rfl (by decide) (by decide)).1

/-- C5: for every configured identifier whose host initially has no shadow
root and supports `attachShadow` without raising, a completed first call
yields, for that identifier, the `attached-new-open-shadowRoot` success as its
(first) result record and leaves exactly one style node — `<style
id=STYLE_ID>` with the supplied CSS — in the newly created open shadow root; a
completed second call with a different CSS text yields the
`existing-open-shadowRoot` success and updates that same node's text content
to the new value, never creating a second node. -/
theorem C5_attach_then_update (css1 css2 : String) (wait : Bool) (tmo : Int)
    (d : Doc) (hid : String) (h : Host)
    (hmem : hid ∈ HOST_IDS) (hg : getHost d hid = some h)
    (hsh : h.shadow = .noRoot) (hfn : h.attachIsFunction = true)
    (hthr : h.attachThrows = false) (hdiff : css1 ≠ css2)
    (hc1 : (injectCssIntoPlasmoHost css1 wait tmo d).2.2 = true) :
    (injectCssIntoPlasmoHost css1 wait tmo d).2.1.find?
        (fun r => r.hostId = hid) = some (attachedRec hid) ∧
    getHost (injectCssIntoPlasmoHost css1 wait tmo d).1 hid =
      some { h with shadow := .openRoot [⟨STYLE_ID, "style", css1⟩] } ∧
    (injectCssIntoPlasmoHost css2 wait tmo
        (injectCssIntoPlasmoHost css1 wait tmo d).1).2.1.find?
        (fun r => r.hostId = hid) = some (existingRec hid) ∧
    getHost (injectCssIntoPlasmoHost css2 wait tmo
        (injectCssIntoPlasmoHost css1 wait tmo d).1).1 hid =
      some { h with shadow := .openRoot [⟨STYLE_ID, "style", css2⟩] } ∧
    (∀ r ∈ (injectCssIntoPlasmoHost css2 wait tmo
        (injectCssIntoPlasmoHost css1 wait tmo d).1).2.1,
      r.hostId = hid → r = existingRec hid) := by
  have hhid : h.hostId = hid := by simpa using List.find?_some hg
  have hfoundA : ∀ d', getHost d' hid = some h → (getHost d' hid).isSome = true := by
    intro d' hP
    rw [hP]
    rfl
  have hstepA : ∀ d' h', getHost d' hid = some h → getHost d' hid = some h' →
      getHost (setFirstHost d' hid (injectIntoHost css1 hid h').1) hid =
        some { h with shadow := .openRoot [⟨STYLE_ID, "style", css1⟩] } ∧
      (injectIntoHost css1 hid h').2.1 = attachedRec hid := by
    intro d' h' hP hg'
    rw [hP] at hg'
    cases hg'
    rw [injectIntoHost_fresh hsh hfn hthr]
    exact ⟨getHost_setFirst_same hP hhid, rfl⟩
  have hotherA : ∀ d' h'' hid', hid' ≠ hid → getHost d' hid = some h →
      getHost d' hid' = some h'' →
      getHost (setFirstHost d' hid' (injectIntoHost css1 hid' h'').1) hid =
        some h := by
    intro d' h'' hid' hne hP hg'
    rw [getHost_stable_other hne hg']
    exact hP
  have hfoundB : ∀ d', getHost d' hid =
      some { h with shadow := .openRoot [⟨STYLE_ID, "style", css1⟩] } →
      (getHost d' hid).isSome = true := by
    intro d' hP
    rw [hP]
    rfl
  have hstepB : ∀ d' h', getHost d' hid =
      some { h with shadow := .openRoot [⟨STYLE_ID, "style", css1⟩] } →
      getHost d' hid = some h' →
      getHost (setFirstHost d' hid (injectIntoHost css1 hid h').1) hid =
        some { h with shadow := .openRoot [⟨STYLE_ID, "style", css1⟩] } ∧
      (injectIntoHost css1 hid h').2.1 = existingRec hid := by
    intro d' h' hP hg'
    rw [hP] at hg'
    cases hg'
    rw [@injectIntoHost_open_existing css1 hid
      { h with shadow := .openRoot [⟨STYLE_ID, "style", css1⟩] }
      [⟨STYLE_ID, "style", css1⟩] rfl rfl]
    exact ⟨getHost_setFirst_same hP hhid, rfl⟩
  have hotherB : ∀ d' h'' hid', hid' ≠ hid → getHost d' hid =
      some { h with shadow := .openRoot [⟨STYLE_ID, "style", css1⟩] } →
      getHost d' hid' = some h'' →
      getHost (setFirstHost d' hid' (injectIntoHost css1 hid' h'').1) hid =
        some { h with shadow := .openRoot [⟨STYLE_ID, "style", css1⟩] } := by
    intro d' h'' hid' hne hP hg'
    rw [getHost_stable_other hne hg']
    exact hP
  have hest1 := @injectGo_establish css1 wait tmo hid
    (fun d' => getHost d' hid = some h)
    (fun d' => getHost d' hid =
      some { h with shadow := .openRoot [⟨STYLE_ID, "style", css1⟩] })
    (attachedRec hid) (existingRec hid)
    hfoundA hstepA hotherA hfoundB hstepB hotherB HOST_IDS d hg hmem hc1
  have hmap1 : (injectCssIntoPlasmoHost css1 wait tmo d).1.hosts.map (·.hostId) =
      d.hosts.map (·.hostId) := injectGo_hostIds HOST_IDS d
  have hc2 : (injectCssIntoPlasmoHost css2 wait tmo
      (injectCssIntoPlasmoHost css1 wait tmo d).1).2.2 = true := by
    have hcongr := @injectGo_c_congr css1 css2 wait tmo HOST_IDS d
      (injectCssIntoPlasmoHost css1 wait tmo d).1 hmap1
    exact hcongr.trans hc1
  have hstepC : ∀ d' h', getHost d' hid =
      some { h with shadow := .openRoot [⟨STYLE_ID, "style", css1⟩] } →
      getHost d' hid = some h' →
      getHost (setFirstHost d' hid (injectIntoHost css2 hid h').1) hid =
        some { h with shadow := .openRoot [⟨STYLE_ID, "style", css2⟩] } ∧
      (injectIntoHost css2 hid h').2.1 = existingRec hid := by
    intro d' h' hP hg'
    rw [hP] at hg'
    cases hg'
    rw [@injectIntoHost_open_existing css2 hid
      { h with shadow := .openRoot [⟨STYLE_ID, "style", css1⟩] }
      [⟨STYLE_ID, "style", css1⟩] rfl rfl]
    exact ⟨getHost_setFirst_same hP hhid, rfl⟩
  have hfoundD : ∀ d', getHost d' hid =
      some { h with shadow := .openRoot [⟨STYLE_ID, "style", css2⟩] } →
      (getHost d' hid).isSome = true := by
    intro d' hP
    rw [hP]
    rfl
  have hstepD : ∀ d' h', getHost d' hid =
      some { h with shadow := .openRoot [⟨STYLE_ID, "style", css2⟩] } →
      getHost d' hid = some h' →
      getHost (setFirstHost d' hid (injectIntoHost css2 hid h').1) hid =
        some { h with shadow := .openRoot [⟨STYLE_ID, "style", css2⟩] } ∧
      (injectIntoHost css2 hid h').2.1 = existingRec hid := by
    intro d' h' hP hg'
    rw [hP] at hg'
    cases hg'
    rw [@injectIntoHost_open_existing css2 hid
      { h with shadow := .openRoot [⟨STYLE_ID, "style", css2⟩] }
      [⟨STYLE_ID, "style", css2⟩] rfl rfl]
    exact ⟨getHost_setFirst_same hP hhid, rfl⟩
  have hotherD : ∀ d' h'' hid', hid' ≠ hid → getHost d' hid =
      some { h with shadow := .openRoot [⟨STYLE_ID, "style", css2⟩] } →
      getHost d' hid' = some h'' →
      getHost (setFirstHost d' hid' (injectIntoHost css2 hid' h'').1) hid =
        some { h with shadow := .openRoot [⟨STYLE_ID, "style", css2⟩] } := by
    intro d' h'' hid' hne hP hg'
    rw [getHost_stable_other hne hg']
    exact hP
  have hotherC : ∀ d' h'' hid', hid' ≠ hid → getHost d' hid =
      some { h with shadow := .openRoot [⟨STYLE_ID, "style", css1⟩] } →
      getHost d' hid' = some h'' →
      getHost (setFirstHost d' hid' (injectIntoHost css2 hid' h'').1) hid =
        some { h with shadow := .openRoot [⟨STYLE_ID, "style", css1⟩] } := by
    intro d' h'' hid' hne hP hg'
    rw [getHost_stable_other hne hg']
    exact hP
  have hest2 := @injectGo_establish css2 wait tmo hid
    (fun d' => getHost d' hid =
      some { h with shadow := .openRoot [⟨STYLE_ID, "style", css1⟩] })
    (fun d' => getHost d' hid =
      some { h with shadow := .openRoot [⟨STYLE_ID, "style", css2⟩] })
    (existingRec hid) (existingRec hid)
    hfoundB hstepC hotherC hfoundD hstepD hotherD HOST_IDS
    (injectCssIntoPlasmoHost css1 wait tmo d).1 hest1.1 hmem hc2
  refine ⟨hest1.2.1, hest1.1, hest2.2.1, hest2.1, ?_⟩
  intro r hr hrid
  rcases hest2.2.2 r hr hrid with hcase | hcase
  · exact hcase
  · exact hcase

theorem C5_witness :
    getHost (injectCssIntoPlasmoHost "b" false 0
        (injectCssIntoPlasmoHost "a" false 0
          ⟨[⟨"qaiUnderlineWordShadowHostEl", .noRoot, true, false⟩]⟩).1).1
      "qaiUnderlineWordShadowHostEl" =
      some ⟨"qaiUnderlineWordShadowHostEl",
        .openRoot [⟨STYLE_ID, "style", "b"⟩], true, false⟩ :=
  (C5_attach_then_update "a" "b" false 0
    ⟨[⟨"qaiUnderlineWordShadowHostEl", .noRoot, true, false⟩]⟩
    "qaiUnderlineWordShadowHostEl"
    ⟨"qaiUnderlineWordShadowHostEl", .noRoot, true, false⟩
    (by decide) (by decide) rfl rfl rfl (by decide) (by decide)).2.2.2.1
